import Mathlib

/-!
# Verification of the moon-lotto core (generator / astronomy / evaluator)

Shallow embedding of the repository's core algorithms:

* `src/lib/generator/index.ts` — seeded generator (`generateNumbers`,
  `applyFullMoonModifier`, `digitalRoot`, `calculateBias`, `generateBaseScores`,
  the four `GAME_CONFIGS`);
* `src/lib/generator/multi-strategy.ts` — the five multi strategies
  (`generateStatistical`, `generatePoisson`, `generateDelta`, `generateMarkov`,
  `generateHybrid`, `generateMultiStrategy`, `createSeededRandom`, `shuffleArray`);
* `src/lib/astronomy/engine.ts` — discretisation and next-boundary search
  (`getNextTithiChange`, `getNextNakshatraChange`), parameterised by the
  external celestial-mechanics oracle (phase angle / ecliptic longitude per
  instant), which the repository treats as a black box;
* `src/lib/generator/history.ts` — `computeScores`, `buildHistoricalStats`;
* `src/lib/evaluator/prizes.ts` — prize tables, label and amount parsing,
  `evaluatePrediction`.

Modelling conventions:

* JavaScript numbers are modelled as exact rationals (`ℚ`); all quantities the
  claims depend on (32-bit RNG words, millisecond timestamps, small score
  sums) are exact in IEEE doubles, so no rounding behaviour is lost.
* The Mulberry32 generator is modelled bit-exactly on `ℕ` with explicit
  `% 2^32` at every point where JS coerces to 32-bit integers.
* `Array.prototype.sort` is stable with a total comparator (ES2019), so each
  sort is modelled by the stable `List.insertionSort` with the comparator's
  "comes no later than" relation.
* JS `Map`s keyed by the loop counter are modelled as association lists built
  in the same order; `map.get(n) || 0` becomes `(List.lookup n m).getD 0`.
* Functions that `throw` on an unknown game slug return `Option`.
-/

namespace MoonLotto

/- Batteries marks the `Rat` field operations `@[irreducible]`; the concrete
evaluations below need them to unfold for `decide`. -/
attribute [local semireducible] Rat.add Rat.mul Rat.sub Rat.inv Rat.ofScientific

/-! ## Basic helpers -/

/-- `[lo, lo+1, …, hi]`, the candidate pools `for (let n = min; n <= max; n++)`. -/
def rangeList (lo hi : ℕ) : List ℕ := List.range' lo (hi + 1 - lo)

/-- `Math.floor` of a nonnegative JS number, as a natural number. -/
def floorNat (q : ℚ) : ℕ := (⌊q⌋).toNat

/-! ## Seeded RNG (Mulberry32, `createSeededRandom` in both generator files)

```js
function createSeededRandom(seed) {
    return function () {
        let t = seed += 0x6D2B79F5;
        t = Math.imul(t ^ t >>> 15, t | 1);
        t ^= t + Math.imul(t ^ t >>> 7, t | 61);
        return ((t ^ t >>> 14) >>> 0) / 4294967296;
    };
}
```
`Math.imul` multiplies modulo `2^32`; `^`, `|`, `>>>` coerce to 32-bit, and
on 32-bit values signed/unsigned representations agree bitwise, so every step
is faithfully `% 2^32` on `ℕ`. -/

def UINT32 : ℕ := 4294967296

/-- One output word of Mulberry32, from the already-incremented closure seed. -/
def mulberryOut (s : ℕ) : ℕ :=
  let t0 := s % UINT32
  let a := Nat.xor t0 (t0 / 2 ^ 15)
  let t1 := (a * (Nat.lor a 1)) % UINT32
  let b := ((Nat.xor t1 (t1 / 2 ^ 7)) * (Nat.lor t1 61)) % UINT32
  let t2 := Nat.xor t1 ((t1 + b) % UINT32)
  Nat.xor t2 (t2 / 2 ^ 14)

/-- The mutable closure variable `seed` of `createSeededRandom`. -/
structure Rng where
  seed : ℕ
deriving Repr, DecidableEq

/-- One call of the closure: bump the seed, emit `mulberryOut / 2^32`. -/
def rngNext (r : Rng) : ℚ × Rng :=
  let s := r.seed + 0x6D2B79F5
  ((mulberryOut s : ℚ) / (UINT32 : ℚ), ⟨s⟩)

/-- `createSeededRandom(seed)`: the initial closure state. -/
def createSeededRandom (seed : ℕ) : Rng := ⟨seed⟩

/-! ## Game configurations (`GAME_CONFIGS`, src/lib/generator/index.ts) -/

structure GameConfig where
  slug : String
  name : String
  mainCount : ℕ
  mainMin : ℕ
  mainMax : ℕ
  bonusCount : Option ℕ := none
  bonusMin : Option ℕ := none
  bonusMax : Option ℕ := none
  bonusFromSameDrum : Bool := false
  historyCount : Option ℕ := none
deriving Repr, DecidableEq

def dailyGrandConfig : GameConfig :=
  { slug := "daily-grand", name := "Daily Grand", mainCount := 5, mainMin := 1, mainMax := 49,
    bonusCount := some 1, bonusMin := some 1, bonusMax := some 7,
    bonusFromSameDrum := false, historyCount := some 108 }

def lottoMaxConfig : GameConfig :=
  { slug := "lotto-max", name := "Lotto Max", mainCount := 7, mainMin := 1, mainMax := 50,
    historyCount := some 108 }

def lotto649Config : GameConfig :=
  { slug := "lotto-649", name := "Lotto 6/49", mainCount := 6, mainMin := 1, mainMax := 49,
    historyCount := some 108 }

def lottarioConfig : GameConfig :=
  { slug := "lottario", name := "Lottario", mainCount := 6, mainMin := 1, mainMax := 45,
    historyCount := some 52 }

/-- The record `GAME_CONFIGS[gameSlug]` (`undefined` for an unknown slug). -/
def GAME_CONFIGS (slug : String) : Option GameConfig :=
  if slug = "daily-grand" then some dailyGrandConfig
  else if slug = "lotto-max" then some lottoMaxConfig
  else if slug = "lotto-649" then some lotto649Config
  else if slug = "lottario" then some lottarioConfig
  else none

/-! ## Digital root and bias (src/lib/generator/index.ts) -/

/-- `digitalRoot(n)`: 0 maps to 9, otherwise `n % 9` with 0 mapped to 9. -/
def digitalRoot (n : ℕ) : ℕ :=
  if n = 0 then 9
  else if n % 9 = 0 then 9 else n % 9

/-- `calculateBias(numberDigitalRoot, anchorDigitalRoot)` with the default
bias strength 10: full bonus on equality, half bonus when the roots differ by
1 or 8 (mod-9 wrap-around adjacency). -/
def calculateBias (numberRoot anchorRoot : ℕ) : ℚ :=
  if numberRoot = anchorRoot then 10
  else if ((numberRoot : ℤ) - anchorRoot).natAbs = 1 ∨
          ((numberRoot : ℤ) - anchorRoot).natAbs = 8 then 10 / 2
  else 0

/-! ## Base scores (`generateBaseScores`) -/

/-- The loop `for (let n = min; n <= max; n++) scores.set(n, random() * 10)`. -/
def baseScoresGo (lo : ℕ) : ℕ → Rng → List (ℕ × ℚ)
  | 0, _ => []
  | len + 1, rng =>
    let (r, rng1) := rngNext rng
    (lo, r * 10) :: baseScoresGo (lo + 1) len rng1

/-- `generateBaseScores(min, max, seed)`: a fresh Mulberry32 stream seeded with
`seed` fills one pseudo-random score per number of the range. -/
def generateBaseScores (lo hi seed : ℕ) : List (ℕ × ℚ) :=
  baseScoresGo lo (hi + 1 - lo) (createSeededRandom seed)

/-! ## Full Moon modifier (`applyFullMoonModifier`) -/

structure ModifierResult where
  numbers : List ℕ
  applied : Bool
  before : Option ℕ
  after : Option ℕ
  repairSteps : Option ℕ
deriving Repr, DecidableEq

/-- The attempt loop of `applyFullMoonModifier`: starting from the current
`modified` value, repeatedly bump the ones digit by one (mod 10) and accept the
first value that is in `[lo, hi]` and not among the other sorted numbers
(`sorted.slice(0, lastIdx)`).  Returns the accepted value and the number of
repair steps used, or `none` after the fuel (10 in the source) runs out. -/
def fmAttempts (pre : List ℕ) (lo hi : ℕ) : ℕ → ℕ → ℕ → Option (ℕ × ℕ)
  | _, _, 0 => none
  | modified, steps, fuel + 1 =>
    let m := (modified / 10) * 10 + ((modified % 10) + 1) % 10
    if lo ≤ m ∧ m ≤ hi ∧ m ∉ pre then some (m, steps + 1)
    else fmAttempts pre lo hi m (steps + 1) fuel

/-- `applyFullMoonModifier(numbers, min, max)`: sort ascending, then try up to
10 ones-digit bumps on the largest number; on success overwrite the last slot
(without re-sorting), otherwise keep the sorted input and report not applied. -/
def applyFullMoonModifier (numbers : List ℕ) (lo hi : ℕ) : ModifierResult :=
  let sorted := List.insertionSort (· ≤ ·) numbers
  match sorted.getLast? with
  | none => { numbers := sorted, applied := false, before := none, after := none,
              repairSteps := some 10 }
  | some original =>
    let pre := sorted.dropLast
    match fmAttempts pre lo hi original 0 10 with
    | some (m, steps) =>
      { numbers := pre ++ [m], applied := true, before := some original,
        after := some m, repairSteps := some steps }
    | none =>
      { numbers := sorted, applied := false, before := some original,
        after := some original, repairSteps := some 10 }

/-! ## Sorting relations for the JS comparators

`Array.prototype.sort` with a consistent comparator is a stable sort, so it is
modelled by `List.insertionSort` applied to the relation "the comparator says
`a` comes no later than `b`" — equal elements keep their original (ascending
candidate) order, exactly as a stable sort does. -/

/-- Comparator `(a, b) => b.score - a.score || a.number - b.number`
(score descending, then number ascending). -/
def scoreNumberRel (a b : ℕ × ℚ) : Prop := b.2 < a.2 ∨ (a.2 = b.2 ∧ a.1 ≤ b.1)

instance (a b : ℕ × ℚ) : Decidable (scoreNumberRel a b) :=
  inferInstanceAs (Decidable (b.2 < a.2 ∨ (a.2 = b.2 ∧ a.1 ≤ b.1)))

/-- Comparator `(a, b) => b.score - a.score` (score descending, stable). -/
def scoreDescRel {β : Type} (a b : β × ℚ) : Prop := b.2 ≤ a.2

instance {β : Type} (a b : β × ℚ) : Decidable (scoreDescRel a b) :=
  inferInstanceAs (Decidable (b.2 ≤ a.2))

/-! ## Historical stats shape (src/lib/generator/history.ts) -/

structure HistoricalDraw where
  drawAt : ℤ
  numbers : List ℕ
  bonus : Option (List ℕ) := none
deriving Repr, DecidableEq

structure HistoricalStats where
  mainScores : List (ℕ × ℚ)
  bonusScores : Option (List (ℕ × ℚ)) := none
  totalDraws : ℕ
  lastDrawAt : Option ℤ := none
deriving Repr, DecidableEq

/-! ## `generateNumbers` (src/lib/generator/index.ts)

The Tithi index, Nakshatra index and the full-moon flag of the event date are
computed by the external astronomy engine (`getTithi`, `getNakshatra`,
`isFullMoonDate` applied to `eventDate`); they enter the embedding as an
explicit oracle record. -/

inductive Strategy where
  | TITHI
  | NAKSHATRA
deriving Repr, DecidableEq

/-- Values the astronomy engine reports for the event date. -/
structure Astro where
  tithiIndex : ℕ
  nakshatraIndex : ℕ
  isFullMoon : Bool
deriving Repr, DecidableEq

structure GenerationResult where
  gameSlug : String
  strategy : Strategy
  mainNumbers : List ℕ
  bonusNumbers : Option (List ℕ)
  tithiIndex : ℕ
  nakshatraIndex : ℕ
  digitalRoot : ℕ
  modifierApplied : Bool
  modifierBefore : Option ℕ
  modifierAfter : Option ℕ
  modifierRepairSteps : Option ℕ
  generatedAt : ℕ
  seed : ℕ
deriving Repr, DecidableEq

/-- The candidate scoring loop shared by the main and bonus pools: every `n`
of the range gets `baseScores.get(n) || 0` plus the digital-root bias. -/
def biasedCandidates (lo hi : ℕ) (baseScores : List (ℕ × ℚ)) (anchorRoot : ℕ) :
    List (ℕ × ℚ) :=
  (rangeList lo hi).map fun n =>
    (n, (List.lookup n baseScores).getD 0 + calculateBias (digitalRoot n) anchorRoot)

/-- Rank by score descending (number ascending on ties) and keep the top `k`
numbers, then sort them ascending — the selection step of `generateNumbers`. -/
def topRanked (k : ℕ) (cands : List (ℕ × ℚ)) : List ℕ :=
  List.insertionSort (· ≤ ·) (((List.insertionSort scoreNumberRel cands).take k).map Prod.fst)

/-- The bonus-number block of `generateNumbers` (only when the game configures
a bonus pool): score the bonus range with the same digital-root bias, exclude
already-picked main numbers when the bonus shares the main drum, keep the top
`bonusCount`. -/
def genBonusNumbers (config : GameConfig) (effectiveSeed : ℕ) (anchorRoot : ℕ)
    (historicalStats : Option HistoricalStats) (mainNumbers : List ℕ) :
    Option (List ℕ) :=
  match config.bonusCount, config.bonusMin, config.bonusMax with
  | some bc, some blo, some bhi =>
    if bc = 0 then none
    else
      let bonusBaseScores :=
        (historicalStats.bind (·.bonusScores)).getD
          (generateBaseScores blo bhi (effectiveSeed + 1000))
      let bonusCandidates := biasedCandidates blo bhi bonusBaseScores anchorRoot
      if config.bonusFromSameDrum then
        some (((List.insertionSort scoreNumberRel
          (bonusCandidates.filter (fun c => c.1 ∉ mainNumbers))).take bc).map Prod.fst)
      else
        some (((List.insertionSort scoreNumberRel bonusCandidates).take bc).map Prod.fst)
  | _, _, _ => none

/-- `generateNumbers(gameSlug, strategy, eventDate, seed?, historicalStats?)`.
`eventDate` is the epoch-millisecond timestamp (`eventDate.getTime()` is the
default seed); the `throw` on an unknown game becomes `none`. -/
def generateNumbers (gameSlug : String) (strategy : Strategy) (astro : Astro)
    (eventDate : ℕ) (seed : Option ℕ) (historicalStats : Option HistoricalStats) :
    Option GenerationResult :=
  match GAME_CONFIGS gameSlug with
  | none => none
  | some config =>
    let effectiveSeed := seed.getD eventDate
    let anchorDigitalRoot :=
      match strategy with
      | .TITHI => digitalRoot astro.tithiIndex
      | .NAKSHATRA =>
        if astro.nakshatraIndex % 9 = 0 then 9 else astro.nakshatraIndex % 9
    let baseScores :=
      (historicalStats.map (·.mainScores)).getD
        (generateBaseScores config.mainMin config.mainMax effectiveSeed)
    let candidates := biasedCandidates config.mainMin config.mainMax baseScores anchorDigitalRoot
    let picked := topRanked config.mainCount candidates
    let modifierResult :=
      if astro.isFullMoon then applyFullMoonModifier picked config.mainMin config.mainMax
      else { numbers := picked, applied := false, before := none, after := none,
             repairSteps := none }
    let mainNumbers := modifierResult.numbers
    some
      { gameSlug := gameSlug
        strategy := strategy
        mainNumbers := mainNumbers
        bonusNumbers := genBonusNumbers config effectiveSeed anchorDigitalRoot
          historicalStats mainNumbers
        tithiIndex := astro.tithiIndex
        nakshatraIndex := astro.nakshatraIndex
        digitalRoot := anchorDigitalRoot
        modifierApplied := modifierResult.applied
        modifierBefore := modifierResult.before
        modifierAfter := modifierResult.after
        modifierRepairSteps := modifierResult.repairSteps
        generatedAt := eventDate
        seed := effectiveSeed }

/-! ## Multi-strategy generator (src/lib/generator/multi-strategy.ts) -/

inductive MultiStrategy where
  | STATISTICAL
  | POISSON
  | DELTA
  | MARKOV
  | HYBRID
deriving Repr, DecidableEq

structure MultiStrategyResult where
  gameSlug : String
  strategy : MultiStrategy
  mainNumbers : List ℕ
  bonusNumbers : Option (List ℕ)
  tithiIndex : ℕ
  nakshatraIndex : ℕ
  isFullMoon : Bool
  generatedAt : ℕ
  seed : ℕ
deriving Repr, DecidableEq

/-- `Math.floor(random() * (i + 1))`, the Fisher–Yates swap target in
`shuffleArray`. -/
def swapIndex (r : ℚ) (i : ℕ) : ℕ := floorNat (r * (i + 1))

/-- `[result[i], result[j]] = [result[j], result[i]]` — both reads happen
before both writes. -/
def listSwap (l : List ℕ) (i j : ℕ) : List ℕ :=
  (l.set i (l.getD j 0)).set j (l.getD i 0)

/-- The loop of `shuffleArray`, with `i` running from `length - 1` down to 1. -/
def shuffleGo : ℕ → List ℕ → Rng → List ℕ × Rng
  | 0, l, rng => (l, rng)
  | i + 1, l, rng =>
    let (r, rng1) := rngNext rng
    shuffleGo i (listSwap l (i + 1) (swapIndex r (i + 1))) rng1

/-- `shuffleArray(arr, random)`: seeded Fisher–Yates shuffle. -/
def shuffleArray (l : List ℕ) (rng : Rng) : List ℕ × Rng :=
  shuffleGo (l.length - 1) l rng

/-! ### STATISTICAL strategy -/

/-- The scoring loop of `generateStatistical`: per number, two RNG draws
(`baseFreq`, `gap`) and a flat bonus on a digital-root match with the Tithi
root; `score = baseFreq * 0.6 + gap * 0.3 + rootBonus`. -/
def statCandidatesGo (tithiRoot : ℕ) (lo : ℕ) : ℕ → Rng → List (ℕ × ℚ) × Rng
  | 0, rng => ([], rng)
  | len + 1, rng =>
    let (f, rng1) := rngNext rng
    let (g, rng2) := rngNext rng1
    let rootBonus : ℚ := if digitalRoot lo = tithiRoot then 5 else 0
    let score := (f * 10) * (0.6 : ℚ) + (floorNat (g * 20) : ℚ) * (0.3 : ℚ) + rootBonus
    let (rest, rng3) := statCandidatesGo tithiRoot (lo + 1) len rng2
    ((lo, score) :: rest, rng3)

/-- `generateStatistical(config, seed, tithiIndex)` (main numbers only). -/
def generateStatistical (config : GameConfig) (seed tithiIndex : ℕ) : List ℕ :=
  let tithiRoot := digitalRoot tithiIndex
  let (candidates, _) :=
    statCandidatesGo tithiRoot config.mainMin (config.mainMax + 1 - config.mainMin)
      (createSeededRandom seed)
  List.insertionSort (· ≤ ·)
    (((List.insertionSort scoreDescRel candidates).take config.mainCount).map Prod.fst)

/-! ### POISSON strategy -/

/-- The attempt loop of `generatePoisson`: repeatedly shuffle the pool, score
the first `mainCount` numbers on sum-range and parity targets, keep the best
(`-Infinity` initial best score is `none`), stop early on a perfect 20. -/
def poissonGo (config : GameConfig) (sumLo sumHi : ℤ) (targetOdd : ℕ) :
    ℕ → Rng → List ℕ → Option ℚ → List ℕ
  | 0, _, best, _ => best
  | fuel + 1, rng, best, bestScore =>
    let pool := rangeList config.mainMin config.mainMax
    let (shuffled, rng1) := shuffleArray pool rng
    let candidate := List.insertionSort (· ≤ ·) (shuffled.take config.mainCount)
    let s : ℤ := (candidate.sum : ℤ)
    let oddCount := (candidate.filter (fun n => n % 2 = 1)).length
    let score : ℚ :=
      (if sumLo ≤ s ∧ s ≤ sumHi then 10 else 0) +
      (if ((oddCount : ℤ) - (targetOdd : ℤ)).natAbs ≤ 1 then 10 else 0)
    let better := match bestScore with
      | none => true
      | some b => decide (b < score)
    let best' := if better then candidate else best
    let bestScore' := if better then some score else bestScore
    if 20 ≤ score then best'
    else poissonGo config sumLo sumHi targetOdd fuel rng1 best' bestScore'

/-- `generatePoisson(config, seed)` (main numbers only). -/
def generatePoisson (config : GameConfig) (seed : ℕ) : List ℕ :=
  let sumLo : ℤ :=
    ⌊((config.mainMin + config.mainMax : ℚ) / 2) * config.mainCount * (0.85 : ℚ)⌋
  let sumHi : ℤ :=
    ⌊((config.mainMin + config.mainMax : ℚ) / 2) * config.mainCount * (1.15 : ℚ)⌋
  let targetOdd := config.mainCount / 2
  poissonGo config sumLo sumHi targetOdd 100 (createSeededRandom seed) [] none

/-! ### DELTA strategy -/

/-- `deltaWeights` (index 0 unused by `pickDelta`). -/
def deltaWeights : List ℕ := [0, 20, 18, 15, 12, 10, 8, 6, 5, 4, 3, 2, 1]

/-- The subtraction scan of `pickDelta`: return the first index whose running
remainder drops to ≤ 0. -/
def pickDeltaLoop : List ℕ → ℕ → ℚ → Option ℕ
  | [], _, _ => none
  | w :: ws, i, r =>
    let r1 := r - w
    if r1 ≤ 0 then some i else pickDeltaLoop ws (i + 1) r1

/-- `pickDelta()`: weighted draw of a delta in 1..12 (default 1). -/
def pickDelta (rng : Rng) : ℕ × Rng :=
  let (r, rng1) := rngNext rng
  ((pickDeltaLoop (deltaWeights.drop 1) 1 (r * ((deltaWeights.sum : ℕ) : ℚ))).getD 1, rng1)

/-- The inner chain of `generateDelta`: extend from `prev` by weighted deltas,
aborting (returning the partial chain) as soon as a step passes `mainMax`. -/
def deltaChain (config : GameConfig) : ℕ → ℕ → Rng → List ℕ × Rng
  | _, 0, rng => ([], rng)
  | prev, k + 1, rng =>
    let (d, rng1) := pickDelta rng
    let next := prev + d
    if config.mainMax < next then ([], rng1)
    else
      let (rest, rng2) := deltaChain config next k rng1
      (next :: rest, rng2)

/-- The retry loop of `generateDelta` (50 attempts, then the seeded-shuffle
fallback with the RNG state reached so far). -/
def deltaGo (config : GameConfig) : ℕ → Rng → List ℕ
  | 0, rng =>
    let pool := rangeList config.mainMin config.mainMax
    List.insertionSort (· ≤ ·) ((shuffleArray pool rng).1.take config.mainCount)
  | fuel + 1, rng =>
    let (r, rng1) := rngNext rng
    let first := floorNat (r * ((config.mainMax : ℚ) / 3)) + config.mainMin
    let (rest, rng2) := deltaChain config first (config.mainCount - 1) rng1
    let numbers := first :: rest
    if numbers.length = config.mainCount then numbers
    else deltaGo config fuel rng2

/-- `generateDelta(config, seed)` (main numbers only). -/
def generateDelta (config : GameConfig) (seed : ℕ) : List ℕ :=
  deltaGo config 50 (createSeededRandom seed)

/-! ### MARKOV strategy -/

/-- `Math.floor(random() * Math.min(5, candidates.length))`. -/
def markovPickIndex (r : ℚ) (len : ℕ) : ℕ := floorNat (r * (min 5 len : ℕ))

/-- The per-iteration candidate scoring of `generateMarkov`: every unselected
number of the range gets `10/(distance+1) + rootMatch + random()*2` (one RNG
draw per unselected number, in ascending order). -/
def markovCandsGo (chosen : List ℕ) (current : ℕ) (lo : ℕ) :
    ℕ → Rng → List (ℕ × ℚ) × Rng
  | 0, rng => ([], rng)
  | len + 1, rng =>
    if lo ∈ chosen then markovCandsGo chosen current (lo + 1) len rng
    else
      let (r, rng1) := rngNext rng
      let dist := ((lo : ℤ) - (current : ℤ)).natAbs
      let rootMatch : ℚ := if digitalRoot lo = digitalRoot current then 3 else 0
      let prob := (1 / ((dist : ℚ) + 1)) * 10 + rootMatch + r * 2
      let (rest, rng2) := markovCandsGo chosen current (lo + 1) len rng1
      ((lo, prob) :: rest, rng2)

/-- The `while (numbers.size < config.mainCount)` loop of `generateMarkov`;
each pass scores the unselected numbers, sorts by probability (stable,
descending) and picks among the top `min 5 len` with further randomness. -/
def markovGo (config : GameConfig) : ℕ → List ℕ → ℕ → Rng → List ℕ
  | 0, chosen, _, _ => chosen
  | fuel + 1, chosen, current, rng =>
    if chosen.length < config.mainCount then
      let (cands, rng1) :=
        markovCandsGo chosen current config.mainMin
          (config.mainMax + 1 - config.mainMin) rng
      let ranked := List.insertionSort scoreDescRel cands
      let (r, rng2) := rngNext rng1
      let next := (ranked.getD (markovPickIndex r ranked.length) (0, 0)).1
      markovGo config fuel (chosen ++ [next]) next rng2
    else chosen

/-- `generateMarkov(config, seed, nakshatraIndex)` (main numbers only). -/
def generateMarkov (config : GameConfig) (seed nakshatraIndex : ℕ) : List ℕ :=
  let startNum := ((nakshatraIndex * 2) % (config.mainMax - config.mainMin)) + config.mainMin
  List.insertionSort (· ≤ ·)
    (markovGo config config.mainCount [startNum] startNum (createSeededRandom seed))

/-! ### HYBRID strategy -/

/-- JS `Map` insertion order over the concatenated strategy outputs: the keys
in order of first occurrence. -/
def insertionOrderKeys (l : List ℕ) : List ℕ :=
  l.foldl (fun acc n => if n ∈ acc then acc else acc ++ [n]) []

/-- `Array.from(votes.entries()).map(([n, v]) => ({n, v, r: random()}))`:
one RNG tiebreaker per distinct number, in insertion order. -/
def hybridCandsGo (allNums : List ℕ) : List ℕ → Rng → List (ℕ × ℕ × ℚ) × Rng
  | [], rng => ([], rng)
  | k :: ks, rng =>
    let (r, rng1) := rngNext rng
    let (rest, rng2) := hybridCandsGo allNums ks rng1
    ((k, allNums.count k, r) :: rest, rng2)

/-- Comparator `(a, b) => b.v - a.v || b.r - a.r` (votes descending, then
random tiebreaker descending, stable). -/
def hybridRel (a b : ℕ × ℕ × ℚ) : Prop :=
  b.2.1 < a.2.1 ∨ (a.2.1 = b.2.1 ∧ b.2.2 ≤ a.2.2)

instance (a b : ℕ × ℕ × ℚ) : Decidable (hybridRel a b) :=
  inferInstanceAs (Decidable (b.2.1 < a.2.1 ∨ (a.2.1 = b.2.1 ∧ b.2.2 ≤ a.2.2)))

/-- The inline full-moon tweak of `generateHybrid`: one ones-digit bump on the
largest number, accepted only if in range and not already present, followed by
a re-sort. -/
def hybridFullMoonFix (config : GameConfig) (numbers : List ℕ) : List ℕ :=
  match numbers.getLast? with
  | none => numbers
  | some last =>
    let modified := (last / 10) * 10 + (last % 10 + 1) % 10
    if config.mainMin ≤ modified ∧ modified ≤ config.mainMax ∧ modified ∉ numbers then
      List.insertionSort (· ≤ ·) (numbers.dropLast ++ [modified])
    else numbers

/-- `generateHybrid(config, seed, tithiIndex, nakshatraIndex, isFullMoon)`:
consensus vote over the four other strategies run with decorrelated seeds. -/
def generateHybrid (config : GameConfig) (seed tithiIndex nakshatraIndex : ℕ)
    (isFullMoon : Bool) : List ℕ :=
  let statistical := generateStatistical config (seed + 1000) tithiIndex
  let poisson := generatePoisson config (seed + 2000)
  let delta := generateDelta config (seed + 3000)
  let markov := generateMarkov config (seed + 4000) nakshatraIndex
  let allNums := statistical ++ poisson ++ delta ++ markov
  let (cands, _) := hybridCandsGo allNums (insertionOrderKeys allNums) (createSeededRandom seed)
  let numbers := List.insertionSort (· ≤ ·)
    (((List.insertionSort hybridRel cands).take config.mainCount).map Prod.fst)
  if isFullMoon ∧ numbers ≠ [] then hybridFullMoonFix config numbers else numbers

/-! ### `generateMultiStrategy` -/

/-- The bonus-number block of `generateMultiStrategy`: shuffle the bonus pool
with a decorrelated seed, excluding main numbers when the drums coincide. -/
def multiBonusNumbers (config : GameConfig) (effectiveSeed : ℕ) (mainNumbers : List ℕ) :
    Option (List ℕ) :=
  match config.bonusCount, config.bonusMin, config.bonusMax with
  | some bc, some blo, some bhi =>
    if bc = 0 then none
    else
      let bonusRandom := createSeededRandom (effectiveSeed + 9999)
      let bonusPool := rangeList blo bhi
      if config.bonusFromSameDrum then
        some ((shuffleArray (bonusPool.filter (· ∉ mainNumbers)) bonusRandom).1.take bc)
      else
        some ((shuffleArray bonusPool bonusRandom).1.take bc)
  | _, _, _ => none

/-- `generateMultiStrategy(gameSlug, strategy, eventDate, seed?)`.  The
heterogeneous `metadata` record is omitted from the embedding; every metadata
field is computed from the same deterministic data as the numbers. -/
def generateMultiStrategy (gameSlug : String) (strategy : MultiStrategy)
    (astro : Astro) (eventDate : ℕ) (seed : Option ℕ) : Option MultiStrategyResult :=
  match GAME_CONFIGS gameSlug with
  | none => none
  | some config =>
    let effectiveSeed := seed.getD eventDate
    let mainNumbers :=
      match strategy with
      | .STATISTICAL => generateStatistical config effectiveSeed astro.tithiIndex
      | .POISSON => generatePoisson config effectiveSeed
      | .DELTA => generateDelta config effectiveSeed
      | .MARKOV => generateMarkov config effectiveSeed astro.nakshatraIndex
      | .HYBRID => generateHybrid config effectiveSeed astro.tithiIndex
          astro.nakshatraIndex astro.isFullMoon
    some
      { gameSlug := gameSlug
        strategy := strategy
        mainNumbers := mainNumbers
        bonusNumbers := multiBonusNumbers config effectiveSeed mainNumbers
        tithiIndex := astro.tithiIndex
        nakshatraIndex := astro.nakshatraIndex
        isFullMoon := astro.isFullMoon
        generatedAt := eventDate
        seed := effectiveSeed }

/-! ## Astronomy engine (src/lib/astronomy/engine.ts)

The continuous quantities (`Astronomy.MoonPhase`, the Moon's ecliptic
longitude) come from the external `astronomy-engine` library; they enter the
embedding as oracle functions from epoch milliseconds to degrees.  Times are
epoch milliseconds (`Date.getTime()`); `new Date(x)` with a fractional `x`
truncates toward zero, which for the nonnegative times here is `⌊x⌋`. -/

/-- `getTithi(date).index`: the phase angle discretised into 30 bands of 12°,
1-indexed. -/
def tithiIndexAt (phase : ℤ → ℚ) (t : ℤ) : ℤ := ⌊phase t / 12⌋ + 1

def AYANAMSA_2000 : ℚ := 23.85

def PRECESSION_RATE : ℚ := 50.29 / 3600

/-- `new Date("2000-01-01").getTime()`. -/
def EPOCH_2000 : ℤ := 946684800000

/-- `getAyanamsa(date)`: base angle plus annual precession times elapsed
Julian years since 2000-01-01. -/
def getAyanamsa (t : ℤ) : ℚ :=
  AYANAMSA_2000 + ((t - EPOCH_2000 : ℤ) : ℚ) / (1000 * 60 * 60 * 24 * (365.25 : ℚ)) * PRECESSION_RATE

/-- `getNakshatra(date).index`: tropical longitude minus ayanamsa, one
wrap-around correction, discretised into 27 bands of 360/27°, 1-indexed. -/
def nakshatraIndexAt (elon : ℤ → ℚ) (t : ℤ) : ℤ :=
  let sidereal0 := elon t - getAyanamsa t
  let sidereal := if sidereal0 < 0 then sidereal0 + 360 else sidereal0
  ⌊sidereal / (360 / 27 : ℚ)⌋ + 1

/-- Coarse-scan step: `stepMinutes * 60000` ms. -/
def stepMs : ℤ := 3600000

/-- The coarse hourly scan of `getNextTithiChange` / `getNextNakshatraChange`:
advance one hour at a time, returning the first sample whose index differs
from the start index, or `none` after the step budget (48 in the source). -/
def coarseScan (idx : ℤ → ℤ) (startIdx : ℤ) : ℤ → ℕ → Option ℤ
  | _, 0 => none
  | t, n + 1 =>
    let t1 := t + stepMs
    if idx t1 ≠ startIdx then some t1 else coarseScan idx startIdx t1 n

/-- `binarySearchTithi` / `binarySearchNakshatra`: halve the bracketing
interval while it is wider than 5000 ms; the index probe at the midpoint uses
`new Date(mid)`, i.e. the truncated millisecond.  The JS loop always
terminates after exactly ⌈log2(3600000/5000)⌉ = 10 halvings; the fuel (100 at
the call site) is never exhausted. -/
def binarySearchChange (idx : ℤ → ℤ) (orig : ℤ) : ℕ → ℚ → ℚ → ℚ
  | 0, _, high => high
  | fuel + 1, low, high =>
    if high - low ≤ 5000 then high
    else
      let mid := (low + high) / 2
      if idx ⌊mid⌋ = orig then binarySearchChange idx orig fuel mid high
      else binarySearchChange idx orig fuel low mid

/-- The shared body of `getNextTithiChange` and `getNextNakshatraChange` (the
two functions are textually identical up to the index function): coarse scan
up to 48 hourly steps, then binary search of the bracketing hour; when the
scan exhausts its budget the final sample `t0 + 48h` is returned as-is
("Should not happen with large enough window" in the source). -/
def nextIndexChange (idx : ℤ → ℤ) (t0 : ℤ) : ℤ :=
  let startIdx := idx t0
  match coarseScan idx startIdx t0 48 with
  | some t1 => ⌊binarySearchChange idx startIdx 100 ((t1 - stepMs : ℤ) : ℚ) ((t1 : ℤ) : ℚ)⌋
  | none => t0 + 48 * stepMs

/-- `getNextTithiChange(startDate)`. -/
def getNextTithiChange (phase : ℤ → ℚ) (t0 : ℤ) : ℤ :=
  nextIndexChange (tithiIndexAt phase) t0

/-- `getNextNakshatraChange(startDate)`. -/
def getNextNakshatraChange (elon : ℤ → ℚ) (t0 : ℤ) : ℤ :=
  nextIndexChange (nakshatraIndexAt elon) t0

/-! ## Historical stats (`computeScores`, `buildHistoricalStats`,
src/lib/generator/history.ts)

The imperative counting loops are translated declaratively: for an in-range
`n`, the count accumulated by `counts.set(number, counts.get(number) + 1)`
over all draws is the number of occurrences of `n` in the concatenation of
the draw number lists, and `lastSeenIndex` is the index of the first
(most recent, after the descending sort) draw containing `n`. -/

/-- Comparator `(a, b) => b.drawAt.getTime() - a.drawAt.getTime()` (most
recent first, stable). -/
def drawDescRel (a b : HistoricalDraw) : Prop := b.drawAt ≤ a.drawAt

instance (a b : HistoricalDraw) : Decidable (drawDescRel a b) :=
  inferInstanceAs (Decidable (b.drawAt ≤ a.drawAt))

/-- Occurrences of `n` across a window of draws (the accumulated
`counts.get(n)` for an in-range `n`). -/
def occCount (draws : List HistoricalDraw) (getN : HistoricalDraw → List ℕ) (n : ℕ) : ℕ :=
  ((draws.map getN).flatten).count n

/-- The frequency component of `computeScores`:
`totalDraws > 0 ? (count / totalDraws) * 10 : 0`. -/
def frequencyScore (count totalDraws : ℕ) : ℚ :=
  if 0 < totalDraws then ((count : ℚ) / (totalDraws : ℚ)) * 10 else 0

/-- The gap component of `computeScores`: numbers never seen get the maximum
score 5, otherwise `(min gapIndex maxGap / maxGap) * 5`. -/
def gapScore (gapIndex : Option ℕ) (maxGap : ℕ) : ℚ :=
  match gapIndex with
  | none => 5
  | some g => ((min g maxGap : ℕ) : ℚ) / (maxGap : ℚ) * 5

/-- `computeScores(draws, rangeMin, rangeMax, getNumbers)`. -/
def computeScores (draws : List HistoricalDraw) (rangeMin rangeMax : ℕ)
    (getN : HistoricalDraw → List ℕ) : List (ℕ × ℚ) :=
  let sorted := List.insertionSort drawDescRel draws
  let totalDraws := sorted.length
  let maxGap := max 1 (totalDraws - 1)
  (rangeList rangeMin rangeMax).map fun n =>
    (n, frequencyScore (occCount sorted getN n) totalDraws +
        gapScore (sorted.findIdx? (fun d => n ∈ getN d)) maxGap)

/-- `buildHistoricalStats(draws, config)`. -/
def buildHistoricalStats (draws : List HistoricalDraw) (config : GameConfig) :
    HistoricalStats :=
  let sorted := List.insertionSort drawDescRel draws
  let mainScores := computeScores sorted config.mainMin config.mainMax (·.numbers)
  let bonusScores :=
    match config.bonusCount, config.bonusMin, config.bonusMax with
    | some bc, some blo, some bhi =>
      if bc = 0 then none
      else some (computeScores sorted blo bhi (fun d => d.bonus.getD []))
    | _, _, _ => none
  { mainScores := mainScores
    bonusScores := bonusScores
    totalDraws := sorted.length
    lastDrawAt := (sorted.head?).map (·.drawAt) }

/-! ## Prize evaluator (src/lib/evaluator/prizes.ts)

`evaluatePrediction` receives the candidate and official numbers as JSON/CSV
strings; `parseNumbers` is the wire boundary and the embedding takes the
already-decoded number lists.  Labels and amount texts are genuine strings;
the regular-expression searches are implemented character-exactly (each of
the source's patterns is backtracking-free, so maximal-munch scanning gives
the JS match semantics). -/

structure PrizeRule where
  matchMain : ℕ
  matchBonus : Bool
  matchGrand : Bool := false
  category : String
  prizeValue : Option ℚ
  prizeText : String
deriving Repr, DecidableEq

structure PrizeResult where
  category : Option String
  prizeValue : Option ℚ
  prizeText : Option String
  matchCountMain : ℕ
  matchCountBonus : ℕ
  matchCountGrand : ℕ
deriving Repr, DecidableEq

/-- The static `PRIZE_TABLES` (per game slug). -/
def PRIZE_TABLES (slug : String) : Option (List PrizeRule) :=
  if slug = "lotto-max" then some [
    { matchMain := 7, matchBonus := false, category := "7/7", prizeValue := some 70000000, prizeText := "$70,000,000" },
    { matchMain := 6, matchBonus := true, category := "6/7 + Bonus", prizeValue := some 196159, prizeText := "$196,159" },
    { matchMain := 6, matchBonus := false, category := "6/7", prizeValue := some 4440, prizeText := "$4,440" },
    { matchMain := 5, matchBonus := true, category := "5/7 + Bonus", prizeValue := some 960, prizeText := "$960" },
    { matchMain := 5, matchBonus := false, category := "5/7", prizeValue := some 122, prizeText := "$122" },
    { matchMain := 4, matchBonus := true, category := "4/7 + Bonus", prizeValue := some 56, prizeText := "$56" },
    { matchMain := 4, matchBonus := false, category := "4/7", prizeValue := some 20, prizeText := "$20" },
    { matchMain := 3, matchBonus := true, category := "3/7 + Bonus", prizeValue := some 20, prizeText := "$20" },
    { matchMain := 3, matchBonus := false, category := "3/7", prizeValue := some 5, prizeText := "FREE PLAY" }]
  else if slug = "lotto-649" then some [
    { matchMain := 6, matchBonus := false, category := "6/6", prizeValue := some 5000000, prizeText := "$5,000,000" },
    { matchMain := 5, matchBonus := true, category := "5/6 + Bonus", prizeValue := some 104177, prizeText := "$104,177" },
    { matchMain := 5, matchBonus := false, category := "5/6", prizeValue := some 1042, prizeText := "$1,042" },
    { matchMain := 4, matchBonus := false, category := "4/6", prizeValue := some 78, prizeText := "$78" },
    { matchMain := 3, matchBonus := false, category := "3/6", prizeValue := some 10, prizeText := "$10" },
    { matchMain := 2, matchBonus := true, category := "2/6 + Bonus", prizeValue := some 5, prizeText := "$5" },
    { matchMain := 2, matchBonus := false, category := "2/6", prizeValue := some 3, prizeText := "FREE PLAY" }]
  else if slug = "daily-grand" then some [
    { matchMain := 5, matchBonus := false, matchGrand := true, category := "5/5 + GN", prizeValue := none, prizeText := "$1,000 a DAY for LIFE" },
    { matchMain := 5, matchBonus := false, matchGrand := false, category := "5/5", prizeValue := none, prizeText := "$25,000 a YEAR for LIFE" },
    { matchMain := 4, matchBonus := false, matchGrand := true, category := "4/5 + GN", prizeValue := some 1000, prizeText := "$1,000" },
    { matchMain := 4, matchBonus := false, matchGrand := false, category := "4/5", prizeValue := some 500, prizeText := "$500" },
    { matchMain := 3, matchBonus := false, matchGrand := true, category := "3/5 + GN", prizeValue := some 100, prizeText := "$100" },
    { matchMain := 3, matchBonus := false, matchGrand := false, category := "3/5", prizeValue := some 20, prizeText := "$20" },
    { matchMain := 2, matchBonus := false, matchGrand := true, category := "2/5 + GN", prizeValue := some 10, prizeText := "$10" },
    { matchMain := 1, matchBonus := false, matchGrand := true, category := "1/5 + GN", prizeValue := some 4, prizeText := "$4" },
    { matchMain := 0, matchBonus := false, matchGrand := true, category := "GN Only", prizeValue := some 3, prizeText := "FREE PLAY" }]
  else if slug = "lottario" then some [
    { matchMain := 6, matchBonus := false, category := "6/6", prizeValue := some 250000, prizeText := "$250,000" },
    { matchMain := 5, matchBonus := true, category := "5/6 + Bonus", prizeValue := some 10000, prizeText := "$10,000" },
    { matchMain := 5, matchBonus := false, category := "5/6", prizeValue := some 500, prizeText := "$500" },
    { matchMain := 4, matchBonus := true, category := "4/6 + Bonus", prizeValue := some 30, prizeText := "$30" },
    { matchMain := 4, matchBonus := false, category := "4/6", prizeValue := some 10, prizeText := "$10" },
    { matchMain := 3, matchBonus := true, category := "3/6 + Bonus", prizeValue := some 5, prizeText := "$5" },
    { matchMain := 3, matchBonus := false, category := "3/6", prizeValue := some 4, prizeText := "$4" },
    { matchMain := 0, matchBonus := true, category := "0/6 + Bonus", prizeValue := some 1, prizeText := "FREE PLAY" }]
  else none

/-! ### String helpers for the label / amount grammar -/

/-- `pat.isPrefixOf s` on character lists. -/
def startsWithChars : List Char → List Char → Bool
  | [], _ => true
  | _ :: _, [] => false
  | p :: ps, c :: cs => p == c && startsWithChars ps cs

/-- JS `String.prototype.includes(pat)`. -/
def containsSub (pat : List Char) : List Char → Bool
  | [] => startsWithChars pat []
  | c :: cs => startsWithChars pat (c :: cs) || containsSub pat cs

/-- `replace(/\s+/g, ' ')`: collapse every whitespace run to a single space
(`prevWs` records whether the previous character belonged to a run). -/
def collapseWsGo (prevWs : Bool) : List Char → List Char
  | [] => []
  | c :: cs =>
    if c.isWhitespace then
      if prevWs then collapseWsGo true cs else ' ' :: collapseWsGo true cs
    else c :: collapseWsGo false cs

/-- JS `String.prototype.trim()`. -/
def trimChars (l : List Char) : List Char :=
  ((l.dropWhile Char.isWhitespace).reverse.dropWhile Char.isWhitespace).reverse

/-- `matchText.toUpperCase().replace(/\s+/g, ' ').trim()`. -/
def normalizeLabel (s : String) : List Char :=
  trimChars (collapseWsGo false (s.data.map Char.toUpper))

/-- `Number.parseInt` on a (nonempty) digit run. -/
def parseDigits (l : List Char) : ℕ :=
  l.foldl (fun a c => a * 10 + (c.toNat - 48)) 0

/-! ### The label regular expressions

Each source pattern (`(\d)\s*\/\s*5`, `MATCH\s+(\d+)\s+OF\s+\d+`,
`(\d+)\+\/\d+`, `(\d+)\s*\/\s*\d+`) is backtracking-free: every quantified
piece is followed by a character it can never match, so maximal munch at the
leftmost matching start position reproduces the JS engine's semantics. -/

/-- Try `(\d)\s*\/\s*5` at the head of the list. -/
def dailyGrandLabelAt (s : List Char) : Option ℕ :=
  match s with
  | c :: r1 =>
    if c.isDigit then
      match (r1.dropWhile Char.isWhitespace) with
      | '/' :: r2 =>
        match r2.dropWhile Char.isWhitespace with
        | '5' :: _ => some (c.toNat - 48)
        | _ => none
      | _ => none
    else none
  | [] => none

/-- Leftmost occurrence of `(\d)\s*\/\s*5`. -/
def findDailyGrandLabel : List Char → Option ℕ
  | [] => none
  | c :: cs =>
    match dailyGrandLabelAt (c :: cs) with
    | some v => some v
    | none => findDailyGrandLabel cs

/-- Try `MATCH\s+(\d+)\s+OF\s+\d+` at the head of the list. -/
def matchFormAt (s : List Char) : Option ℕ :=
  if startsWithChars "MATCH".data s then
    let r1 := s.drop 5
    let ws1 := r1.takeWhile Char.isWhitespace
    let r2 := r1.dropWhile Char.isWhitespace
    let ds := r2.takeWhile Char.isDigit
    let r3 := r2.dropWhile Char.isDigit
    let ws2 := r3.takeWhile Char.isWhitespace
    let r4 := r3.dropWhile Char.isWhitespace
    if ws1 ≠ [] ∧ ds ≠ [] ∧ ws2 ≠ [] ∧ startsWithChars "OF".data r4 then
      let r5 := r4.drop 2
      let ws3 := r5.takeWhile Char.isWhitespace
      let r6 := r5.dropWhile Char.isWhitespace
      if ws3 ≠ [] ∧ (r6.head?.elim false Char.isDigit) then some (parseDigits ds)
      else none
    else none
  else none

/-- Leftmost occurrence of `MATCH\s+(\d+)\s+OF\s+\d+`. -/
def findMatchForm : List Char → Option ℕ
  | [] => none
  | c :: cs =>
    match matchFormAt (c :: cs) with
    | some v => some v
    | none => findMatchForm cs

/-- Try `(\d+)\+\/\d+` at the head of the list. -/
def plusFormAt (s : List Char) : Option ℕ :=
  let ds := s.takeWhile Char.isDigit
  let r1 := s.dropWhile Char.isDigit
  match ds, r1 with
  | _ :: _, '+' :: '/' :: r2 =>
    if r2.head?.elim false Char.isDigit then some (parseDigits ds) else none
  | _, _ => none

/-- Leftmost occurrence of `(\d+)\+\/\d+`. -/
def findPlusForm : List Char → Option ℕ
  | [] => none
  | c :: cs =>
    match plusFormAt (c :: cs) with
    | some v => some v
    | none => findPlusForm cs

/-- Try `(\d+)\s*\/\s*\d+` at the head of the list. -/
def standardFormAt (s : List Char) : Option ℕ :=
  let ds := s.takeWhile Char.isDigit
  let r1 := s.dropWhile Char.isDigit
  match ds, r1.dropWhile Char.isWhitespace with
  | _ :: _, '/' :: r2 =>
    if (r2.dropWhile Char.isWhitespace).head?.elim false Char.isDigit
    then some (parseDigits ds) else none
  | _, _ => none

/-- Leftmost occurrence of `(\d+)\s*\/\s*\d+`. -/
def findStandardForm : List Char → Option ℕ
  | [] => none
  | c :: cs =>
    match standardFormAt (c :: cs) with
    | some v => some v
    | none => findStandardForm cs

/-! ### `parseMatchDescriptor`, amounts, rules -/

/-- `parseMatchDescriptor(gameSlug, matchText)`; the result triple is
`(matchMain, matchBonus, matchGrand)`. -/
def parseMatchDescriptor (gameSlug matchText : String) :
    Option (ℕ × Bool × Bool) :=
  let normalized := normalizeLabel matchText
  if normalized = [] then none
  else if containsSub "EARLY BIRD".data normalized then none
  else if gameSlug = "daily-grand" then
    match findDailyGrandLabel normalized with
    | none => none
    | some d =>
      some (d, false, containsSub "GN".data normalized || containsSub "GRAND".data normalized)
  else if startsWithChars "MATCH ".data normalized then
    match findMatchForm normalized with
    | none => none
    | some k => some (k, containsSub "BONUS".data normalized, false)
  else
    match findPlusForm normalized with
    | some k => some (k, true, false)
    | none =>
      match findStandardForm normalized with
      | some k => some (k, containsSub "BONUS".data normalized, false)
      | none => none

/-- A prize-share amount on the wire: plain text, or a language-tagged list
(`@lang` / `#text` pairs). -/
inductive AmountField where
  | text (s : String)
  | tagged (entries : List (String × String))
deriving Repr, DecidableEq

/-- `normalizeAmountText(amount)`: prefer the `en` entry of a tagged list. -/
def normalizeAmountText : AmountField → String
  | .text s => s.trim
  | .tagged entries =>
    match (entries.find? (fun e => e.1 == "en")).orElse (fun _ => entries.head?) with
    | some e => e.2.trim
    | none => ""

/-- `Number.parseFloat` after `replace(/[^0-9.]/g, '')`: the stripped text
holds only digits and dots, so the parse is leading digits, an optional dot
and fractional digits (`NaN`, i.e. `none`, when no digit is found). -/
def parseFloatStripped (l : List Char) : Option ℚ :=
  let stripped := l.filter (fun c => c.isDigit || c == '.')
  let intPart := stripped.takeWhile Char.isDigit
  match stripped.dropWhile Char.isDigit with
  | '.' :: r2 =>
    let fracPart := r2.takeWhile Char.isDigit
    if intPart = [] ∧ fracPart = [] then none
    else some ((parseDigits intPart : ℚ) + (parseDigits fracPart : ℚ) / 10 ^ fracPart.length)
  | _ => if intPart = [] then none else some (parseDigits intPart)

/-- `parsePrizeValue(amountText, gameCost)`. -/
def parsePrizeValue (amountText : String) (gameCost : Option ℚ) : Option ℚ :=
  if amountText = "" then none
  else
    let upper := amountText.data.map Char.toUpper
    if containsSub "FREE PLAY".data upper then some (gameCost.getD 0)
    else if containsSub "LIFE".data upper then none
    else parseFloatStripped amountText.data

/-- A dynamic per-draw prize share (`match` label and amount text). -/
structure PrizeShare where
  matchLabel : String
  winningTickets : Option String := none
  amount : AmountField
deriving Repr, DecidableEq

/-- `buildPrizeRules(gameSlug, prizeShares, gameCost)`: parse each label,
silently skipping the unparseable ones. -/
def buildPrizeRules (gameSlug : String) (prizeShares : List PrizeShare)
    (gameCost : Option ℚ) : List PrizeRule :=
  prizeShares.foldr
    (fun share rules =>
      match parseMatchDescriptor gameSlug share.matchLabel with
      | none => rules
      | some (mm, mb, mg) =>
        let prizeText := normalizeAmountText share.amount
        { matchMain := mm, matchBonus := mb, matchGrand := mg,
          category := share.matchLabel,
          prizeValue := parsePrizeValue prizeText gameCost,
          prizeText := prizeText } :: rules)
    []

/-- `getFallbackRules(gameSlug, gameCost)`: the static table, with FREE PLAY
rows re-priced to the game cost when it is known. -/
def getFallbackRules (gameSlug : String) (gameCost : Option ℚ) :
    Option (List PrizeRule) :=
  (PRIZE_TABLES gameSlug).map fun base =>
    base.map fun rule =>
      if containsSub "FREE PLAY".data (rule.prizeText.data.map Char.toUpper) then
        { rule with prizeValue := match gameCost with
            | some c => some c
            | none => rule.prizeValue }
      else rule

/-- `userNums.filter((n) => drawNums.includes(n)).length` — the main-match
count of `evaluatePrediction` (each candidate occurrence counts). -/
def matchMainCountFn (userNums drawNums : List ℕ) : ℕ :=
  (userNums.filter (fun n => n ∈ drawNums)).length

/-- The rule scan of `evaluatePrediction`: first rule whose required
main-match count and bonus/grand requirement equal the actual outcome. -/
def findWinningRule (gameSlug : String) (rules : List PrizeRule)
    (mainCount : ℕ) (bonusEff grandEff : Bool) : Option PrizeRule :=
  rules.find? fun rule =>
    if gameSlug = "daily-grand" then
      mainCount == rule.matchMain && rule.matchGrand == grandEff
    else
      mainCount == rule.matchMain && rule.matchBonus == bonusEff

/-- `evaluatePrediction(gameSlug, candidateNumbers, candidateBonus,
officialNumbers, officialBonus, prizeShares?, gameCost?)`.  The JSON/CSV
decoding of `parseNumbers` is the wire boundary; the embedding takes the
decoded lists (absent / null strings become `none`, `parseNumbers(x)[0]`
becomes `head?`). -/
def evaluatePrediction (gameSlug : String) (candidateNumbers : List ℕ)
    (candidateBonus : Option (List ℕ)) (officialNumbers : List ℕ)
    (officialBonus : Option (List ℕ)) (prizeShares : Option (List PrizeShare))
    (gameCost : Option ℚ) : Option PrizeResult :=
  let rules :=
    match prizeShares with
    | some shares =>
      if 0 < shares.length then some (buildPrizeRules gameSlug shares gameCost)
      else getFallbackRules gameSlug gameCost
    | none => getFallbackRules gameSlug gameCost
  match rules with
  | none => none
  | some rules =>
    if rules = [] then none
    else
      let userNums := candidateNumbers
      let drawNums := officialNumbers
      let drawBonus := officialBonus.bind (·.head?)
      let matchMain := matchMainCountFn userNums drawNums
      let matchGrandCount :=
        if gameSlug = "daily-grand" then
          let userGrand := candidateBonus.bind (·.head?)
          match userGrand, drawBonus with
          | some ug, some dg => if ug = dg then 1 else 0
          | _, _ => 0
        else 0
      let matchBonusCount :=
        if gameSlug = "daily-grand" then 0
        else
          match drawBonus with
          | some db => if db ∈ userNums then 1 else 0
          | none => 0
      match findWinningRule gameSlug rules matchMain (0 < matchBonusCount)
          (0 < matchGrandCount) with
      | some rule =>
        some { category := some rule.category, prizeValue := rule.prizeValue,
               prizeText := some rule.prizeText, matchCountMain := matchMain,
               matchCountBonus := matchBonusCount, matchCountGrand := matchGrandCount }
      | none =>
        some { category := none, prizeValue := some 0, prizeText := none,
               matchCountMain := matchMain, matchCountBonus := matchBonusCount,
               matchCountGrand := matchGrandCount }

/-! # Proof layer -/

/-! ## RNG range and index bounds -/

theorem lt32_xor {x y : ℕ} (hx : x < UINT32) (hy : y < UINT32) :
    Nat.xor x y < UINT32 := by
  have h : UINT32 = 2 ^ 32 := by norm_num [UINT32]
  rw [h] at hx hy ⊢
  exact Nat.xor_lt_two_pow hx hy

theorem mulberryOut_lt (s : ℕ) : mulberryOut s < UINT32 := by
  have hpos : 0 < UINT32 := by norm_num [UINT32]
  unfold mulberryOut
  refine lt32_xor ?h (lt_of_le_of_lt (Nat.div_le_self _ _) ?h)
  exact lt32_xor (Nat.mod_lt _ hpos) (Nat.mod_lt _ hpos)

theorem rngNext_nonneg (r : Rng) : 0 ≤ (rngNext r).1 := by
  unfold rngNext
  positivity

theorem rngNext_lt_one (r : Rng) : (rngNext r).1 < 1 := by
  unfold rngNext
  rw [div_lt_one (by norm_num [UINT32])]
  exact_mod_cast mulberryOut_lt (r.seed + 0x6D2B79F5)

theorem floorNat_lt (r : ℚ) (m : ℕ) (h1 : r < 1) (hm : 0 < m) :
    floorNat (r * m) < m := by
  unfold floorNat
  have hrm : r * m < m := by
    calc r * m < 1 * m := by
          apply mul_lt_mul_of_pos_right h1
          exact_mod_cast hm
    _ = m := one_mul _
  have hfl : ⌊r * (m : ℚ)⌋ < (m : ℤ) := by
    rw [Int.floor_lt]
    exact_mod_cast hrm
  omega

theorem floorNat_le_floorNat (a b : ℚ) (hab : a ≤ b) :
    floorNat a ≤ floorNat b := by
  unfold floorNat
  have := Int.floor_le_floor hab
  omega

/-- The Fisher–Yates swap target `Math.floor(random() * (i + 1))` stays in
`[0, i]` for any RNG value in `[0, 1)`. -/
theorem swapIndex_le (r : ℚ) (i : ℕ) (h0 : 0 ≤ r) (h1 : r < 1) :
    swapIndex r i ≤ i := by
  have h := floorNat_lt r (i + 1) h1 (Nat.succ_pos i)
  have e : ((i + 1 : ℕ) : ℚ) = (i : ℚ) + 1 := by push_cast; ring
  rw [e] at h
  unfold swapIndex
  omega

/-- The MARKOV pick `Math.floor(random() * Math.min(5, len))` indexes an
existing element whenever the candidate list is nonempty. -/
theorem markovPickIndex_lt (r : ℚ) (len : ℕ) (h0 : 0 ≤ r) (h1 : r < 1)
    (hlen : 0 < len) : markovPickIndex r len < len := by
  have hmin : 0 < min 5 len := by omega
  have := floorNat_lt r (min 5 len) h1 hmin
  unfold markovPickIndex
  omega

/-! ## Swap and shuffle preserve the pool (as a multiset) -/

theorem getD_cons_swap_perm (t : List ℕ) (m : ℕ) (a : ℕ) (hm : m < t.length) :
    List.Perm ((t.getD m 0) :: t.set m a) (a :: t) := by
  induction t generalizing m with
  | nil => simp at hm
  | cons x xs ih =>
    cases m with
    | zero =>
      simp only [List.getD_cons_zero, List.set_cons_zero]
      exact List.Perm.swap a x xs
    | succ k =>
      simp only [List.getD_cons_succ, List.set_cons_succ]
      have hk : k < xs.length := by simpa using hm
      have h1 : List.Perm (xs.getD k 0 :: x :: xs.set k a) (x :: xs.getD k 0 :: xs.set k a) :=
        List.Perm.swap _ _ _
      have h2 : List.Perm (x :: xs.getD k 0 :: xs.set k a) (x :: a :: xs) := (ih k hk).cons x
      have h3 : List.Perm (x :: a :: xs) (a :: x :: xs) := List.Perm.swap _ _ _
      exact (h1.trans h2).trans h3

theorem listSwap_perm (l : List ℕ) (i j : ℕ) (hi : i < l.length) (hj : j < l.length) :
    List.Perm (listSwap l i j) l := by
  induction l generalizing i j with
  | nil => simp at hi
  | cons x xs ih =>
    cases i with
    | zero =>
      cases j with
      | zero => simp [listSwap]
      | succ q =>
        have hq : q < xs.length := by simpa using hj
        simp only [listSwap, List.getD_cons_succ, List.set_cons_zero, List.getD_cons_zero,
          List.set_cons_succ]
        exact getD_cons_swap_perm xs q x hq
    | succ p =>
      cases j with
      | zero =>
        have hp : p < xs.length := by simpa using hi
        simp only [listSwap, List.getD_cons_zero, List.set_cons_succ, List.getD_cons_succ,
          List.set_cons_zero]
        exact getD_cons_swap_perm xs p x hp
      | succ q =>
        have hp : p < xs.length := by simpa using hi
        have hq : q < xs.length := by simpa using hj
        simp only [listSwap, List.getD_cons_succ, List.set_cons_succ]
        exact (ih p q hp hq).cons x

theorem shuffleGo_perm (i : ℕ) : ∀ (l : List ℕ) (rng : Rng), i < l.length →
    List.Perm (shuffleGo i l rng).1 l := by
  induction i with
  | zero => intro l rng _; simp [shuffleGo]
  | succ i ih =>
    intro l rng hi
    simp only [shuffleGo]
    have hr0 := rngNext_nonneg rng
    have hr1 := rngNext_lt_one rng
    have hji : swapIndex (rngNext rng).1 (i + 1) ≤ i + 1 :=
      swapIndex_le _ _ hr0 hr1
    have hj : swapIndex (rngNext rng).1 (i + 1) < l.length := lt_of_le_of_lt hji hi
    have hswap := listSwap_perm l (i + 1) (swapIndex (rngNext rng).1 (i + 1)) hi hj
    have hlen : (listSwap l (i + 1) (swapIndex (rngNext rng).1 (i + 1))).length = l.length :=
      hswap.length_eq
    have hstep := ih (listSwap l (i + 1) (swapIndex (rngNext rng).1 (i + 1)))
      (rngNext rng).2 (by omega)
    exact hstep.trans hswap

theorem shuffleArray_perm (l : List ℕ) (rng : Rng) :
    List.Perm (shuffleArray l rng).1 l := by
  unfold shuffleArray
  match l with
  | [] =>
    simp [shuffleGo]
  | x :: xs =>
    exact shuffleGo_perm _ _ rng (by simp)

/-! ## Candidate pools and the rank-take-sort pipeline -/

theorem rangeList_nodup (lo hi : ℕ) : (rangeList lo hi).Nodup :=
  List.nodup_range' lo (hi + 1 - lo)

theorem rangeList_length (lo hi : ℕ) :
    (rangeList lo hi).length = hi + 1 - lo := by simp [rangeList]

theorem mem_rangeList {lo hi x : ℕ} : x ∈ rangeList lo hi ↔ lo ≤ x ∧ x ≤ hi := by
  unfold rangeList
  rw [List.mem_range']
  constructor
  · rintro ⟨i, hi1, rfl⟩; omega
  · intro ⟨h1, h2⟩; exact ⟨x - lo, by omega, by omega⟩

/-- Valid main-number sets: exactly `mainCount` values, pairwise distinct,
inside `[mainMin, mainMax]`. -/
def ValidSet (config : GameConfig) (l : List ℕ) : Prop :=
  l.length = config.mainCount ∧ l.Nodup ∧
    ∀ x ∈ l, config.mainMin ≤ x ∧ x ≤ config.mainMax

/-- `ValidSet` plus ascending order. -/
def ValidPick (config : GameConfig) (l : List ℕ) : Prop :=
  ValidSet config l ∧ l.Sorted (· ≤ ·)

/-- The recurring "rank by a comparator, take the first `k`, project the
number, sort ascending" pipeline: it yields `k` distinct numbers out of the
candidate keys, in ascending order. -/
theorem sort_take_map_spec {α : Type} (rel : α → α → Prop) [DecidableRel rel]
    (cands : List α) (f : α → ℕ) (k : ℕ)
    (hnd : (cands.map f).Nodup) (hk : k ≤ cands.length) :
    (List.insertionSort (· ≤ ·) (((List.insertionSort rel cands).take k).map f)).length = k ∧
    (List.insertionSort (· ≤ ·) (((List.insertionSort rel cands).take k).map f)).Nodup ∧
    (∀ x ∈ List.insertionSort (· ≤ ·) (((List.insertionSort rel cands).take k).map f),
      x ∈ cands.map f) ∧
    (List.insertionSort (· ≤ ·) (((List.insertionSort rel cands).take k).map f)).Sorted
      (· ≤ ·) := by
  have hperm : List.Perm (List.insertionSort rel cands) cands := List.perm_insertionSort rel cands
  have hmapperm : List.Perm ((List.insertionSort rel cands).map f) (cands.map f) := hperm.map f
  have htaken : ((List.insertionSort rel cands).take k).map f =
      ((List.insertionSort rel cands).map f).take k := List.map_take f _ k
  have hsortperm : List.Perm
      (List.insertionSort (· ≤ ·) (((List.insertionSort rel cands).take k).map f))
      (((List.insertionSort rel cands).take k).map f) :=
    List.perm_insertionSort _ _
  have hndtaken : (((List.insertionSort rel cands).take k).map f).Nodup := by
    rw [htaken]
    exact (List.take_sublist _ _).nodup (hmapperm.nodup_iff.mpr hnd)
  have hlen : (((List.insertionSort rel cands).take k).map f).length = k := by
    rw [List.length_map, List.length_take, hperm.length_eq]
    omega
  refine ⟨?_, ?_, ?_, List.sorted_insertionSort _ _⟩
  · rw [hsortperm.length_eq, hlen]
  · exact hsortperm.nodup_iff.mpr hndtaken
  · intro x hx
    have hx1 : x ∈ ((List.insertionSort rel cands).take k).map f := hsortperm.mem_iff.mp hx
    rw [htaken] at hx1
    exact hmapperm.mem_iff.mp (List.mem_of_mem_take hx1)

/-! ## Full-moon modifier properties -/

theorem fmAttempts_some {pre : List ℕ} {lo hi : ℕ} :
    ∀ {modified steps fuel m st : ℕ},
    fmAttempts pre lo hi modified steps fuel = some (m, st) →
    lo ≤ m ∧ m ≤ hi ∧ m ∉ pre := by
  intro modified steps fuel
  induction fuel generalizing modified steps with
  | zero => intro m st h; simp [fmAttempts] at h
  | succ fuel ih =>
    intro m st h
    simp only [fmAttempts] at h
    split at h
    · rename_i hcond
      simp only [Option.some.injEq, Prod.mk.injEq] at h
      obtain ⟨h2, h3⟩ := h
      subst h2
      exact hcond
    · exact ih h

/-- The modifier never breaks the count, distinctness or range invariants
(order is a different story — see the counterexample for C1). -/
theorem applyFullMoonModifier_valid (numbers : List ℕ) (lo hi : ℕ)
    (hnd : numbers.Nodup) (hrange : ∀ x ∈ numbers, lo ≤ x ∧ x ≤ hi) :
    (applyFullMoonModifier numbers lo hi).numbers.length = numbers.length ∧
    (applyFullMoonModifier numbers lo hi).numbers.Nodup ∧
    ∀ x ∈ (applyFullMoonModifier numbers lo hi).numbers, lo ≤ x ∧ x ≤ hi := by
  unfold applyFullMoonModifier
  set s := List.insertionSort (· ≤ ·) numbers with hs
  dsimp only
  have hperm : List.Perm s numbers := List.perm_insertionSort _ _
  have hnds : s.Nodup := hperm.nodup_iff.mpr hnd
  have hranges : ∀ x ∈ s, lo ≤ x ∧ x ≤ hi :=
    fun x hx => hrange x (hperm.mem_iff.mp hx)
  have hlens : s.length = numbers.length := hperm.length_eq
  cases hlast : s.getLast? with
  | none =>
    exact ⟨hlens, hnds, hranges⟩
  | some original =>
    have hne : s ≠ [] := by
      intro hcontra
      rw [hcontra] at hlast
      simp at hlast
    dsimp only
    cases hatt : fmAttempts s.dropLast lo hi original 0 10 with
    | none =>
      exact ⟨hlens, hnds, hranges⟩
    | some ms =>
      obtain ⟨m, st⟩ := ms
      obtain ⟨hm1, hm2, hm3⟩ := fmAttempts_some hatt
      have hpre : s.dropLast.Nodup := (List.dropLast_sublist _).nodup hnds
      dsimp only
      refine ⟨?_, ?_, ?_⟩
      · simp only [List.length_append, List.length_dropLast, List.length_singleton]
        have : 0 < s.length := List.length_pos.mpr hne
        omega
      · rw [List.nodup_append]
        refine ⟨hpre, List.nodup_singleton m, ?_⟩
        intro x hx hm
        rw [List.mem_singleton] at hm
        subst hm
        exact hm3 hx
      · intro x hx
        rw [List.mem_append] at hx
        cases hx with
        | inl hx2 =>
          exact hranges x ((List.dropLast_sublist _).mem hx2)
        | inr hx2 =>
          rw [List.mem_singleton] at hx2
          subst hx2
          exact ⟨hm1, hm2⟩

/-! ## Strategy invariants -/

/-- Sanity conditions on a game configuration, satisfied by all four
configured games: at least one main number, a nonempty range at least as
large as the main count, the DELTA start offset inside the range, and a
non-degenerate range for the MARKOV start formula. -/
def ConfigOK (c : GameConfig) : Prop :=
  1 ≤ c.mainCount ∧ c.mainMin ≤ c.mainMax ∧
    c.mainCount ≤ c.mainMax + 1 - c.mainMin ∧
    c.mainMin + floorNat ((c.mainMax : ℚ) / 3) ≤ c.mainMax ∧
    c.mainMin < c.mainMax

instance (c : GameConfig) : Decidable (ConfigOK c) :=
  inferInstanceAs (Decidable (_ ∧ _ ∧ _ ∧ _ ∧ _))

theorem biasedCandidates_map_fst (lo hi : ℕ) (b : List (ℕ × ℚ)) (a : ℕ) :
    (biasedCandidates lo hi b a).map Prod.fst = rangeList lo hi := by
  unfold biasedCandidates
  rw [List.map_map]
  exact List.map_id _

/-- The main-number selection of `generateNumbers` (before the modifier) is a
valid ascending pick. -/
theorem topRanked_validPick (config : GameConfig) (b : List (ℕ × ℚ)) (a : ℕ)
    (hc : config.mainCount ≤ config.mainMax + 1 - config.mainMin) :
    ValidPick config (topRanked config.mainCount
      (biasedCandidates config.mainMin config.mainMax b a)) := by
  have hfst := biasedCandidates_map_fst config.mainMin config.mainMax b a
  have hnd : ((biasedCandidates config.mainMin config.mainMax b a).map Prod.fst).Nodup := by
    rw [hfst]; exact rangeList_nodup _ _
  have hlen : (biasedCandidates config.mainMin config.mainMax b a).length =
      config.mainMax + 1 - config.mainMin := by
    have := congrArg List.length hfst
    rw [List.length_map, rangeList_length] at this
    exact this
  obtain ⟨h1, h2, h3, h4⟩ := sort_take_map_spec scoreNumberRel
    (biasedCandidates config.mainMin config.mainMax b a) Prod.fst config.mainCount hnd
    (by omega)
  refine ⟨⟨h1, h2, ?_⟩, h4⟩
  intro x hx
  have := h3 x hx
  rw [hfst] at this
  exact mem_rangeList.mp this

theorem statCandidatesGo_map_fst (tr : ℕ) :
    ∀ (len lo : ℕ) (rng : Rng),
    ((statCandidatesGo tr lo len rng).1).map Prod.fst = List.range' lo len := by
  intro len
  induction len with
  | zero => intro lo rng; simp [statCandidatesGo]
  | succ len ih =>
    intro lo rng
    simp [statCandidatesGo, List.range'_succ, ih]

theorem generateStatistical_validPick (config : GameConfig) (seed tithiIndex : ℕ)
    (hc : config.mainCount ≤ config.mainMax + 1 - config.mainMin) :
    ValidPick config (generateStatistical config seed tithiIndex) := by
  unfold generateStatistical
  have hfst := statCandidatesGo_map_fst (digitalRoot tithiIndex)
    (config.mainMax + 1 - config.mainMin) config.mainMin (createSeededRandom seed)
  have hnd : (((statCandidatesGo (digitalRoot tithiIndex) config.mainMin
      (config.mainMax + 1 - config.mainMin) (createSeededRandom seed)).1).map Prod.fst).Nodup := by
    rw [hfst]; exact List.nodup_range' _ _
  have hlen : ((statCandidatesGo (digitalRoot tithiIndex) config.mainMin
      (config.mainMax + 1 - config.mainMin) (createSeededRandom seed)).1).length =
      config.mainMax + 1 - config.mainMin := by
    have := congrArg List.length hfst
    rw [List.length_map, List.length_range'] at this
    exact this
  obtain ⟨h1, h2, h3, h4⟩ := sort_take_map_spec scoreDescRel _ Prod.fst config.mainCount hnd
    (by omega)
  refine ⟨⟨h1, h2, ?_⟩, h4⟩
  intro x hx
  have hxm := h3 x hx
  rw [hfst] at hxm
  have : x ∈ rangeList config.mainMin config.mainMax := hxm
  exact mem_rangeList.mp this

/-- The "seeded shuffle then take `mainCount`, sorted ascending" fallback used
by POISSON and DELTA. -/
theorem shuffleTake_validPick (config : GameConfig) (rng : Rng)
    (hc : config.mainCount ≤ config.mainMax + 1 - config.mainMin) :
    ValidPick config (List.insertionSort (· ≤ ·)
      ((shuffleArray (rangeList config.mainMin config.mainMax) rng).1.take
        config.mainCount)) := by
  have hperm := shuffleArray_perm (rangeList config.mainMin config.mainMax) rng
  have hsortperm : List.Perm
      (List.insertionSort (· ≤ ·)
        ((shuffleArray (rangeList config.mainMin config.mainMax) rng).1.take config.mainCount))
      ((shuffleArray (rangeList config.mainMin config.mainMax) rng).1.take config.mainCount) :=
    List.perm_insertionSort _ _
  have hndsh : ((shuffleArray (rangeList config.mainMin config.mainMax) rng).1).Nodup :=
    hperm.nodup_iff.mpr (rangeList_nodup _ _)
  have hlensh : ((shuffleArray (rangeList config.mainMin config.mainMax) rng).1).length =
      config.mainMax + 1 - config.mainMin := by
    rw [hperm.length_eq, rangeList_length]
  refine ⟨⟨?_, ?_, ?_⟩, List.sorted_insertionSort _ _⟩
  · rw [hsortperm.length_eq, List.length_take, hlensh]
    omega
  · exact hsortperm.nodup_iff.mpr ((List.take_sublist _ _).nodup hndsh)
  · intro x hx
    have hx1 := hsortperm.mem_iff.mp hx
    have hx2 := (List.take_sublist _ _).mem hx1
    exact mem_rangeList.mp (hperm.mem_iff.mp hx2)

/-- Once the running best of `generatePoisson` holds a valid pick, it stays
valid, whatever the remaining attempts do. -/
theorem poissonGo_keeps (config : GameConfig) (sumLo sumHi : ℤ) (targetOdd : ℕ)
    (hc : config.mainCount ≤ config.mainMax + 1 - config.mainMin) :
    ∀ (fuel : ℕ) (rng : Rng) (best : List ℕ) (bestScore : Option ℚ),
    ValidPick config best →
    ValidPick config (poissonGo config sumLo sumHi targetOdd fuel rng best bestScore) := by
  intro fuel
  induction fuel with
  | zero => intro rng best bs h; exact h
  | succ fuel ih =>
    intro rng best bs h
    simp only [poissonGo]
    set cand := List.insertionSort (· ≤ ·)
      ((shuffleArray (rangeList config.mainMin config.mainMax) rng).1.take config.mainCount)
      with hcand
    have hvalid : ValidPick config cand := shuffleTake_validPick config rng hc
    split_ifs <;>
      first
        | exact hvalid
        | exact h
        | exact ih _ _ _ hvalid
        | exact ih _ _ _ h

/-- With at least one attempt and an empty initial best (`-Infinity` score),
`generatePoisson`'s loop always returns a valid pick. -/
theorem poissonGo_validPick (config : GameConfig) (sumLo sumHi : ℤ) (targetOdd : ℕ)
    (hc : config.mainCount ≤ config.mainMax + 1 - config.mainMin) (fuel : ℕ) (rng : Rng) :
    ValidPick config (poissonGo config sumLo sumHi targetOdd (fuel + 1) rng [] none) := by
  simp only [poissonGo]
  set cand := List.insertionSort (· ≤ ·)
    ((shuffleArray (rangeList config.mainMin config.mainMax) rng).1.take config.mainCount)
    with hcand
  have hvalid : ValidPick config cand := shuffleTake_validPick config rng hc
  split_ifs <;>
    first
      | exact hvalid
      | exact poissonGo_keeps config sumLo sumHi targetOdd hc _ _ _ _ hvalid

theorem generatePoisson_validPick (config : GameConfig) (seed : ℕ)
    (hc : config.mainCount ≤ config.mainMax + 1 - config.mainMin) :
    ValidPick config (generatePoisson config seed) := by
  unfold generatePoisson
  exact poissonGo_validPick config _ _ _ hc 99 _

/-! ### DELTA -/

theorem pickDeltaLoop_ge : ∀ (ws : List ℕ) (i : ℕ) (r : ℚ) (m : ℕ),
    pickDeltaLoop ws i r = some m → i ≤ m := by
  intro ws
  induction ws with
  | nil => intro i r m h; simp [pickDeltaLoop] at h
  | cons w ws ih =>
    intro i r m h
    simp only [pickDeltaLoop] at h
    split at h
    · simp only [Option.some.injEq] at h
      omega
    · have := ih (i + 1) _ m h
      omega

theorem pickDelta_pos (rng : Rng) : 1 ≤ (pickDelta rng).1 := by
  unfold pickDelta
  dsimp only
  cases h : pickDeltaLoop (deltaWeights.drop 1) 1
      ((rngNext rng).1 * ((deltaWeights.sum : ℕ) : ℚ)) with
  | none => simp
  | some m =>
    simp only [Option.getD_some]
    exact pickDeltaLoop_ge _ _ _ _ h

/-- The delta chain strictly ascends from its start and never passes
`mainMax`. -/
theorem deltaChain_spec (config : GameConfig) :
    ∀ (k prev : ℕ) (rng : Rng),
    List.Chain' (· < ·) (prev :: (deltaChain config prev k rng).1) ∧
    ∀ x ∈ (deltaChain config prev k rng).1, x ≤ config.mainMax := by
  intro k
  induction k with
  | zero =>
    intro prev rng
    simp [deltaChain]
  | succ k ih =>
    intro prev rng
    simp only [deltaChain]
    split
    · simp
    · rename_i hle
      push_neg at hle
      obtain ⟨ihchain, ihbound⟩ := ih (prev + (pickDelta rng).1) (rngNext rng).2
      constructor
      · refine List.Chain'.cons ?_ ihchain
        have := pickDelta_pos rng
        omega
      · intro x hx
        rw [List.mem_cons] at hx
        cases hx with
        | inl h => omega
        | inr h => exact ihbound x h

theorem deltaGo_validPick (config : GameConfig) (hok : ConfigOK config) :
    ∀ (fuel : ℕ) (rng : Rng), ValidPick config (deltaGo config fuel rng) := by
  obtain ⟨h1, h2, h3, h4, h5⟩ := hok
  intro fuel
  induction fuel with
  | zero =>
    intro rng
    exact shuffleTake_validPick config rng h3
  | succ fuel ih =>
    intro rng
    simp only [deltaGo]
    split
    · rename_i hlen
      set first := floorNat ((rngNext rng).1 * ((config.mainMax : ℚ) / 3)) + config.mainMin
        with hfirst
      obtain ⟨hchain, hbound⟩ :=
        deltaChain_spec config (config.mainCount - 1) first (rngNext rng).2
      have hsorted : List.Sorted (· < ·)
          (first :: (deltaChain config first (config.mainCount - 1) (rngNext rng).2).1) := by
        rw [List.Sorted, ← List.chain'_iff_pairwise]
        exact hchain
      have hfirstle : first ≤ config.mainMax := by
        have hmono : floorNat ((rngNext rng).1 * ((config.mainMax : ℚ) / 3)) ≤
            floorNat ((config.mainMax : ℚ) / 3) := by
          apply floorNat_le_floorNat
          have hr0 := rngNext_nonneg rng
          have hr1 := rngNext_lt_one rng
          have hq : (0 : ℚ) ≤ (config.mainMax : ℚ) / 3 := by positivity
          nlinarith
        omega
      refine ⟨⟨hlen, ?_, ?_⟩, hsorted.le_of_lt⟩
      · exact hsorted.nodup
      · intro x hx
        rw [List.mem_cons] at hx
        cases hx with
        | inl h => subst h; constructor <;> omega
        | inr h =>
          constructor
          · have : first < x := (List.pairwise_cons.mp hsorted).1 x h
            omega
          · exact hbound x h
    · exact ih _

theorem generateDelta_validPick (config : GameConfig) (seed : ℕ) (hok : ConfigOK config) :
    ValidPick config (generateDelta config seed) :=
  deltaGo_validPick config hok 50 _

/-! ### MARKOV -/

theorem markovCandsGo_map_fst (chosen : List ℕ) (current : ℕ) :
    ∀ (len lo : ℕ) (rng : Rng),
    ((markovCandsGo chosen current lo len rng).1).map Prod.fst =
      (List.range' lo len).filter (fun x => !decide (x ∈ chosen)) := by
  intro len
  induction len with
  | zero => intro lo rng; simp [markovCandsGo]
  | succ len ih =>
    intro lo rng
    simp only [markovCandsGo, List.range'_succ, List.filter_cons]
    by_cases hmem : lo ∈ chosen
    · simp [hmem, ih]
    · simp [hmem, ih]

/-- The MARKOV walk: appending one new in-range number per iteration yields,
with enough fuel, exactly `mainCount` distinct in-range numbers. -/
theorem markovGo_valid (config : GameConfig)
    (hc : config.mainCount ≤ config.mainMax + 1 - config.mainMin) :
    ∀ (fuel : ℕ) (chosen : List ℕ) (current : ℕ) (rng : Rng),
    chosen.Nodup →
    (∀ x ∈ chosen, config.mainMin ≤ x ∧ x ≤ config.mainMax) →
    chosen.length ≤ config.mainCount →
    config.mainCount ≤ chosen.length + fuel →
    (markovGo config fuel chosen current rng).length = config.mainCount ∧
    (markovGo config fuel chosen current rng).Nodup ∧
    ∀ x ∈ markovGo config fuel chosen current rng,
      config.mainMin ≤ x ∧ x ≤ config.mainMax := by
  intro fuel
  induction fuel with
  | zero =>
    intro chosen current rng hnd hrange hle hge
    simp only [markovGo]
    exact ⟨by omega, hnd, hrange⟩
  | succ fuel ih =>
    intro chosen current rng hnd hrange hle hge
    simp only [markovGo]
    split
    · rename_i hlt
      set cands := (markovCandsGo chosen current config.mainMin
        (config.mainMax + 1 - config.mainMin) rng).1 with hcands
      set ranked := List.insertionSort scoreDescRel cands with hranked
      have hmapfst : cands.map Prod.fst =
          (List.range' config.mainMin (config.mainMax + 1 - config.mainMin)).filter
            (fun x => !decide (x ∈ chosen)) := markovCandsGo_map_fst chosen current _ _ rng
      have hrankperm : List.Perm ranked cands := List.perm_insertionSort _ _
      -- the unselected part of the range is nonempty
      have hchosensub : (List.range' config.mainMin
          (config.mainMax + 1 - config.mainMin)).filter (fun x => decide (x ∈ chosen)) ⊆
          chosen := by
        intro x hx
        rw [List.mem_filter] at hx
        exact of_decide_eq_true hx.2
      have hchosenlen : ((List.range' config.mainMin
          (config.mainMax + 1 - config.mainMin)).filter
            (fun x => decide (x ∈ chosen))).length ≤ chosen.length :=
        (List.Nodup.subperm ((List.filter_sublist _).nodup (List.nodup_range' _ _))
          hchosensub).length_le
      have hsplitlen : (((List.range' config.mainMin
          (config.mainMax + 1 - config.mainMin)).filter (fun x => decide (x ∈ chosen))).length +
          (((List.range' config.mainMin (config.mainMax + 1 - config.mainMin)).filter
            (fun x => !decide (x ∈ chosen))).length)) =
          config.mainMax + 1 - config.mainMin := by
        have := (List.filter_append_perm (fun x => decide (x ∈ chosen))
          (List.range' config.mainMin (config.mainMax + 1 - config.mainMin))).length_eq
        rw [List.length_append] at this
        rw [this, List.length_range']
      have hcandslen : 0 < cands.length := by
        have h1 : cands.length = (cands.map Prod.fst).length := (List.length_map _ _).symm
        rw [h1, hmapfst]
        omega
      have hrankedlen : 0 < ranked.length := by
        rw [hrankperm.length_eq]; exact hcandslen
      have hpick := markovPickIndex_lt (rngNext (markovCandsGo chosen current config.mainMin
        (config.mainMax + 1 - config.mainMin) rng).2).1 ranked.length
        (rngNext_nonneg _) (rngNext_lt_one _) hrankedlen
      set pick := markovPickIndex (rngNext (markovCandsGo chosen current config.mainMin
        (config.mainMax + 1 - config.mainMin) rng).2).1 ranked.length with hpickdef
      have hgetd : ranked.getD pick (0, 0) = ranked[pick] :=
        List.getD_eq_getElem ranked (0, 0) hpick
      have hnextmem : (ranked.getD pick (0, 0)).1 ∈ cands.map Prod.fst := by
        rw [hgetd]
        exact List.mem_map_of_mem Prod.fst (hrankperm.mem_iff.mp (List.getElem_mem hpick))
      have hnextfilter : (ranked.getD pick (0, 0)).1 ∈
          (List.range' config.mainMin (config.mainMax + 1 - config.mainMin)).filter
            (fun x => !decide (x ∈ chosen)) := by
        rw [← hmapfst]; exact hnextmem
      rw [List.mem_filter] at hnextfilter
      obtain ⟨hnextrange, hnextnew⟩ := hnextfilter
      have hnextnotmem : (ranked.getD pick (0, 0)).1 ∉ chosen := by
        intro hcontra
        rw [decide_eq_true hcontra] at hnextnew
        simp at hnextnew
      have hnextbounds : config.mainMin ≤ (ranked.getD pick (0, 0)).1 ∧
          (ranked.getD pick (0, 0)).1 ≤ config.mainMax := by
        rw [List.mem_range'] at hnextrange
        obtain ⟨i, hi, heq⟩ := hnextrange
        omega
      apply ih
      · rw [List.nodup_append]
        exact ⟨hnd, List.nodup_singleton _, by
          intro x hx hm
          rw [List.mem_singleton] at hm
          subst hm
          exact hnextnotmem hx⟩
      · intro x hx
        rw [List.mem_append] at hx
        cases hx with
        | inl h => exact hrange x h
        | inr h =>
          rw [List.mem_singleton] at h
          subst h
          exact hnextbounds
      · rw [List.length_append, List.length_singleton]
        omega
      · rw [List.length_append, List.length_singleton]
        omega
    · rename_i hge2
      push_neg at hge2
      exact ⟨by omega, hnd, hrange⟩

theorem generateMarkov_validPick (config : GameConfig) (seed nak : ℕ)
    (hok : ConfigOK config) : ValidPick config (generateMarkov config seed nak) := by
  obtain ⟨h1, h2, h3, h4, h5⟩ := hok
  unfold generateMarkov
  set startNum := ((nak * 2) % (config.mainMax - config.mainMin)) + config.mainMin
    with hstart
  have hstartbounds : config.mainMin ≤ startNum ∧ startNum ≤ config.mainMax := by
    have hmod : (nak * 2) % (config.mainMax - config.mainMin) <
        config.mainMax - config.mainMin := Nat.mod_lt _ (by omega)
    omega
  have hperm : List.Perm (List.insertionSort (· ≤ ·)
      (markovGo config config.mainCount [startNum] startNum (createSeededRandom seed)))
      (markovGo config config.mainCount [startNum] startNum (createSeededRandom seed)) :=
    List.perm_insertionSort _ _
  obtain ⟨hl, hn, hr⟩ := markovGo_valid config h3 config.mainCount [startNum] startNum
    (createSeededRandom seed) (List.nodup_singleton _)
    (by intro x hx; rw [List.mem_singleton] at hx; subst hx; exact hstartbounds)
    (by simp; omega) (by simp)
  refine ⟨⟨?_, ?_, ?_⟩, List.sorted_insertionSort _ _⟩
  · rw [hperm.length_eq]; exact hl
  · exact hperm.nodup_iff.mpr hn
  · intro x hx
    exact hr x (hperm.mem_iff.mp hx)

/-! ### HYBRID -/

theorem insertionOrderKeys_go (l : List ℕ) :
    ∀ acc : List ℕ, acc.Nodup →
    (l.foldl (fun acc n => if n ∈ acc then acc else acc ++ [n]) acc).Nodup ∧
    ∀ x, x ∈ l.foldl (fun acc n => if n ∈ acc then acc else acc ++ [n]) acc ↔
      x ∈ acc ∨ x ∈ l := by
  induction l with
  | nil =>
    intro acc hacc
    simpa using hacc
  | cons a l ih =>
    intro acc hacc
    simp only [List.foldl_cons]
    by_cases hmem : a ∈ acc
    · rw [if_pos hmem]
      obtain ⟨h1, h2⟩ := ih acc hacc
      refine ⟨h1, fun x => ?_⟩
      rw [h2 x, List.mem_cons]
      constructor
      · rintro (hx | hx)
        · exact Or.inl hx
        · exact Or.inr (Or.inr hx)
      · rintro (hx | rfl | hx)
        · exact Or.inl hx
        · exact Or.inl hmem
        · exact Or.inr hx
    · rw [if_neg hmem]
      have hacc2 : (acc ++ [a]).Nodup := by
        rw [List.nodup_append]
        exact ⟨hacc, List.nodup_singleton a, by
          intro x hx hm
          rw [List.mem_singleton] at hm
          subst hm
          exact hmem hx⟩
      obtain ⟨h1, h2⟩ := ih (acc ++ [a]) hacc2
      refine ⟨h1, fun x => ?_⟩
      rw [h2 x, List.mem_append, List.mem_singleton, List.mem_cons]
      tauto

theorem insertionOrderKeys_nodup (l : List ℕ) : (insertionOrderKeys l).Nodup :=
  (insertionOrderKeys_go l [] List.nodup_nil).1

theorem mem_insertionOrderKeys (l : List ℕ) (x : ℕ) :
    x ∈ insertionOrderKeys l ↔ x ∈ l := by
  rw [insertionOrderKeys, (insertionOrderKeys_go l [] List.nodup_nil).2 x]
  simp

theorem hybridCandsGo_map_fst (allNums : List ℕ) :
    ∀ (ks : List ℕ) (rng : Rng),
    ((hybridCandsGo allNums ks rng).1).map Prod.fst = ks := by
  intro ks
  induction ks with
  | nil => intro rng; simp [hybridCandsGo]
  | cons k ks ih =>
    intro rng
    simp [hybridCandsGo, ih]

theorem hybridFullMoonFix_validPick (config : GameConfig) (numbers : List ℕ)
    (h : ValidPick config numbers) :
    ValidPick config (hybridFullMoonFix config numbers) := by
  obtain ⟨⟨hlen, hnd, hrange⟩, hsorted⟩ := h
  unfold hybridFullMoonFix
  cases hlast : numbers.getLast? with
  | none => exact ⟨⟨hlen, hnd, hrange⟩, hsorted⟩
  | some last =>
    have hne : numbers ≠ [] := by
      intro hcontra
      rw [hcontra] at hlast
      simp at hlast
    dsimp only
    split_ifs with hcond
    · obtain ⟨hm1, hm2, hm3⟩ := hcond
      set lst := numbers.dropLast ++ [(last / 10) * 10 + (last % 10 + 1) % 10] with hlst
      have hperm : List.Perm (List.insertionSort (· ≤ ·) lst) lst :=
        List.perm_insertionSort _ _
      have hpre : numbers.dropLast.Nodup := (List.dropLast_sublist _).nodup hnd
      have hlstnd : lst.Nodup := by
        rw [hlst, List.nodup_append]
        exact ⟨hpre, List.nodup_singleton _, by
          intro x hx hm
          rw [List.mem_singleton] at hm
          subst hm
          exact hm3 ((List.dropLast_sublist _).mem hx)⟩
      refine ⟨⟨?_, ?_, ?_⟩, List.sorted_insertionSort _ _⟩
      · rw [hperm.length_eq, hlst, List.length_append, List.length_dropLast,
          List.length_singleton]
        have : 0 < numbers.length := List.length_pos.mpr hne
        omega
      · exact hperm.nodup_iff.mpr hlstnd
      · intro x hx
        have hx1 := hperm.mem_iff.mp hx
        rw [hlst, List.mem_append, List.mem_singleton] at hx1
        cases hx1 with
        | inl h2 => exact hrange x ((List.dropLast_sublist _).mem h2)
        | inr h2 => subst h2; exact ⟨hm1, hm2⟩
    · exact ⟨⟨hlen, hnd, hrange⟩, hsorted⟩

theorem generateHybrid_validPick (config : GameConfig)
    (seed tithiIndex nakshatraIndex : ℕ) (isFullMoon : Bool) (hok : ConfigOK config) :
    ValidPick config (generateHybrid config seed tithiIndex nakshatraIndex isFullMoon) := by
  have h3 : config.mainCount ≤ config.mainMax + 1 - config.mainMin := hok.2.2.1
  unfold generateHybrid
  dsimp only
  set statistical := generateStatistical config (seed + 1000) tithiIndex with hstat
  set poisson := generatePoisson config (seed + 2000) with hpoi
  set delta := generateDelta config (seed + 3000) with hdel
  set markov := generateMarkov config (seed + 4000) nakshatraIndex with hmar
  set allNums := statistical ++ poisson ++ delta ++ markov with hall
  have hstatv := generateStatistical_validPick config (seed + 1000) tithiIndex h3
  have hpoiv := generatePoisson_validPick config (seed + 2000) h3
  have hdelv := generateDelta_validPick config (seed + 3000) hok
  have hmarv := generateMarkov_validPick config (seed + 4000) nakshatraIndex hok
  have hallrange : ∀ x ∈ allNums, config.mainMin ≤ x ∧ x ≤ config.mainMax := by
    intro x hx
    rw [hall] at hx
    simp only [List.mem_append] at hx
    rcases hx with ((hx | hx) | hx) | hx
    · exact hstatv.1.2.2 x hx
    · exact hpoiv.1.2.2 x hx
    · exact hdelv.1.2.2 x hx
    · exact hmarv.1.2.2 x hx
  set keys := insertionOrderKeys allNums with hkeys
  have hkeysnd : keys.Nodup := insertionOrderKeys_nodup allNums
  have hkeyslen : config.mainCount ≤ keys.length := by
    have hsub : statistical ⊆ keys := by
      intro x hx
      rw [hkeys, mem_insertionOrderKeys]
      rw [hall]
      simp only [List.mem_append]
      exact Or.inl (Or.inl (Or.inl hx))
    have := (List.Nodup.subperm hstatv.1.2.1 hsub).length_le
    rw [hstatv.1.1] at this
    exact this
  set cands := (hybridCandsGo allNums keys (createSeededRandom seed)).1 with hcands
  have hcandsfst : cands.map Prod.fst = keys :=
    hybridCandsGo_map_fst allNums keys (createSeededRandom seed)
  have hcandsnd : (cands.map Prod.fst).Nodup := by rw [hcandsfst]; exact hkeysnd
  have hcandslen : config.mainCount ≤ cands.length := by
    have := congrArg List.length hcandsfst
    rw [List.length_map] at this
    omega
  obtain ⟨h1, h2, hmem, h4⟩ :=
    sort_take_map_spec hybridRel cands Prod.fst config.mainCount hcandsnd hcandslen
  have hnumbers : ValidPick config (List.insertionSort (· ≤ ·)
      (((List.insertionSort hybridRel cands).take config.mainCount).map Prod.fst)) := by
    refine ⟨⟨h1, h2, ?_⟩, h4⟩
    intro x hx
    have := hmem x hx
    rw [hcandsfst, hkeys, mem_insertionOrderKeys] at this
    exact hallrange x this
  split_ifs with hcond
  · exact hybridFullMoonFix_validPick config _ hnumbers
  · exact hnumbers

/-! ### Top-level generator validity -/

theorem generateNumbers_valid (gameSlug : String) (config : GameConfig)
    (hcfg : GAME_CONFIGS gameSlug = some config)
    (hc : config.mainCount ≤ config.mainMax + 1 - config.mainMin)
    (strategy : Strategy) (astro : Astro) (eventDate : ℕ) (seed : Option ℕ)
    (stats : Option HistoricalStats) :
    ∃ res, generateNumbers gameSlug strategy astro eventDate seed stats = some res ∧
      ValidSet config res.mainNumbers ∧
      (astro.isFullMoon = false → res.mainNumbers.Sorted (· ≤ ·)) := by
  unfold generateNumbers
  rw [hcfg]
  dsimp only
  refine ⟨_, rfl, ?_⟩
  have hpick := topRanked_validPick config
    ((stats.map (·.mainScores)).getD
      (generateBaseScores config.mainMin config.mainMax (seed.getD eventDate)))
    (match strategy with
      | .TITHI => digitalRoot astro.tithiIndex
      | .NAKSHATRA =>
        if astro.nakshatraIndex % 9 = 0 then 9 else astro.nakshatraIndex % 9) hc
  obtain ⟨⟨hl, hn, hr⟩, hs⟩ := hpick
  cases hfm : astro.isFullMoon with
  | false =>
    rw [if_neg (by simp [hfm])]
    exact ⟨⟨hl, hn, hr⟩, fun _ => hs⟩
  | true =>
    rw [if_pos (by simp [hfm])]
    obtain ⟨hml, hmn, hmr⟩ := applyFullMoonModifier_valid _ config.mainMin config.mainMax hn hr
    refine ⟨⟨?_, hmn, hmr⟩, ?_⟩
    · rw [hml]; exact hl
    · intro hcontra
      simp at hcontra

theorem generateMultiStrategy_valid (gameSlug : String) (config : GameConfig)
    (hcfg : GAME_CONFIGS gameSlug = some config) (hok : ConfigOK config)
    (strategy : MultiStrategy) (astro : Astro) (eventDate : ℕ) (seed : Option ℕ) :
    ∃ res, generateMultiStrategy gameSlug strategy astro eventDate seed = some res ∧
      ValidPick config res.mainNumbers := by
  unfold generateMultiStrategy
  rw [hcfg]
  dsimp only
  refine ⟨_, rfl, ?_⟩
  cases strategy with
  | STATISTICAL => exact generateStatistical_validPick config _ _ hok.2.2.1
  | POISSON => exact generatePoisson_validPick config _ hok.2.2.1
  | DELTA => exact generateDelta_validPick config _ hok
  | MARKOV => exact generateMarkov_validPick config _ _ hok
  | HYBRID => exact generateHybrid_validPick config _ _ _ _ hok

/-! ## Boundary-search properties -/

theorem coarseScan_some (idx : ℤ → ℤ) (s : ℤ) :
    ∀ (n : ℕ) (t t1 : ℤ), coarseScan idx s t n = some t1 →
    idx t1 ≠ s ∧ t + stepMs ≤ t1 := by
  intro n
  induction n with
  | zero => intro t t1 h; simp [coarseScan] at h
  | succ n ih =>
    intro t t1 h
    simp only [coarseScan] at h
    split at h
    · rename_i hne
      simp only [Option.some.injEq] at h
      subst h
      exact ⟨hne, le_refl _⟩
    · obtain ⟨h1, h2⟩ := ih (t + stepMs) t1 h
      refine ⟨h1, ?_⟩
      have hstep : (0 : ℤ) < stepMs := by norm_num [stepMs]
      omega

theorem binarySearchChange_inv (idx : ℤ → ℤ) (t0 : ℤ) :
    ∀ (fuel : ℕ) (low high : ℚ), (t0 : ℚ) ≤ low → low < high →
    idx ⌊high⌋ ≠ idx t0 →
    idx ⌊binarySearchChange idx (idx t0) fuel low high⌋ ≠ idx t0 ∧
    t0 < ⌊binarySearchChange idx (idx t0) fuel low high⌋ := by
  have conclude : ∀ (low high : ℚ), (t0 : ℚ) ≤ low → low < high →
      idx ⌊high⌋ ≠ idx t0 → idx ⌊high⌋ ≠ idx t0 ∧ t0 < ⌊high⌋ := by
    intro low high h1 h2 h3
    refine ⟨h3, ?_⟩
    have hle : (t0 : ℚ) ≤ high := le_of_lt (lt_of_le_of_lt h1 h2)
    have hfl : t0 ≤ ⌊high⌋ := Int.le_floor.mpr (by exact_mod_cast hle)
    have hne : ⌊high⌋ ≠ t0 := by
      intro hcontra
      rw [hcontra] at h3
      exact h3 rfl
    omega
  intro fuel
  induction fuel with
  | zero =>
    intro low high h1 h2 h3
    exact conclude low high h1 h2 h3
  | succ fuel ih =>
    intro low high h1 h2 h3
    simp only [binarySearchChange]
    split
    · exact conclude low high h1 h2 h3
    · rename_i hwide
      push_neg at hwide
      have hmidlow : low < (low + high) / 2 := by linarith
      have hmidhigh : (low + high) / 2 < high := by linarith
      split
      · exact ih ((low + high) / 2) high (le_of_lt (lt_of_le_of_lt h1 hmidlow)) hmidhigh h3
      · rename_i hmidne
        exact ih low ((low + high) / 2) h1 hmidlow hmidne

/-- Shared correctness statement for `getNextTithiChange` and
`getNextNakshatraChange`: the returned instant is strictly after `t0`, and it
either carries a different discretised index or is the silent horizon cap
`t0 + 48h` returned when the coarse scan finds no change. -/
theorem nextIndexChange_spec (idx : ℤ → ℤ) (t0 : ℤ) :
    t0 < nextIndexChange idx t0 ∧
    (idx (nextIndexChange idx t0) ≠ idx t0 ∨ nextIndexChange idx t0 = t0 + 48 * stepMs) := by
  unfold nextIndexChange
  dsimp only
  cases hscan : coarseScan idx (idx t0) t0 48 with
  | none =>
    dsimp only
    have hstep : (0 : ℤ) < stepMs := by norm_num [stepMs]
    exact ⟨by omega, Or.inr rfl⟩
  | some t1 =>
    dsimp only
    obtain ⟨hne, hge⟩ := coarseScan_some idx (idx t0) 48 t0 t1 hscan
    have hlow : (t0 : ℚ) ≤ ((t1 - stepMs : ℤ) : ℚ) := by
      push_cast
      have : t0 ≤ t1 - stepMs := by omega
      exact_mod_cast this
    have hlh : ((t1 - stepMs : ℤ) : ℚ) < ((t1 : ℤ) : ℚ) := by
      push_cast
      have hstep : (0 : ℤ) < stepMs := by norm_num [stepMs]
      have : t1 - stepMs < t1 := by omega
      exact_mod_cast this
    have hhigh : idx ⌊((t1 : ℤ) : ℚ)⌋ ≠ idx t0 := by
      rw [Int.floor_intCast]
      exact hne
    obtain ⟨ha, hb⟩ := binarySearchChange_inv idx t0 100 ((t1 - stepMs : ℤ) : ℚ)
      ((t1 : ℤ) : ℚ) hlow hlh hhigh
    exact ⟨hb, Or.inl ha⟩

/-! # Claim theorems -/

/-- C1 (amended): for every configured game, strategy, timestamp (via its
astronomy readings) and seed, the generated main-number list has exactly the
required count, is pairwise distinct, and lies within the game's range; it is
sorted ascending on every multi-strategy path and, for the tithi/nakshatra
generator, whenever the full-moon repair modifier does not fire.  (When the
modifier fires, `generateNumbers` overwrites the largest number in place
without re-sorting, so a wrapped ones digit can leave the list out of order —
see the counterexample.) -/
theorem claim1_main_numbers_invariants :
    (∀ (gameSlug : String) (config : GameConfig),
      GAME_CONFIGS gameSlug = some config →
      config.mainCount ≤ config.mainMax + 1 - config.mainMin →
      ∀ (strategy : Strategy) (astro : Astro) (eventDate : ℕ) (seed : Option ℕ)
        (stats : Option HistoricalStats),
      ∃ res, generateNumbers gameSlug strategy astro eventDate seed stats = some res ∧
        ValidSet config res.mainNumbers ∧
        (astro.isFullMoon = false → res.mainNumbers.Sorted (· ≤ ·))) ∧
    (∀ (gameSlug : String) (config : GameConfig),
      GAME_CONFIGS gameSlug = some config → ConfigOK config →
      ∀ (strategy : MultiStrategy) (astro : Astro) (eventDate : ℕ) (seed : Option ℕ),
      ∃ res, generateMultiStrategy gameSlug strategy astro eventDate seed = some res ∧
        ValidPick config res.mainNumbers) :=
  ⟨fun gameSlug config hcfg hc strategy astro eventDate seed stats =>
    generateNumbers_valid gameSlug config hcfg hc strategy astro eventDate seed stats,
   fun gameSlug config hcfg hok strategy astro eventDate seed =>
    generateMultiStrategy_valid gameSlug config hcfg hok strategy astro eventDate seed⟩

/-- C1 counterexample: on a full-moon date, a Daily Grand profile that ranks
{1, 2, 3, 45, 49} on top makes the repair modifier rewrite 49 to 40 in place,
so the reported main-number list [1, 2, 3, 45, 40] is not sorted ascending —
refuting the claim's "sorted in ascending order … including on timestamps
where the full-moon repair modifier fires". -/
theorem claim1_unsorted_after_full_moon_cex :
    (generateNumbers "daily-grand" .TITHI ⟨1, 1, true⟩ 0 (some 7)
      (some { mainScores := [(1, 100), (2, 100), (3, 100), (45, 100), (49, 100)],
              bonusScores := some [(3, 1)], totalDraws := 10 })).map
        (fun r => (r.mainNumbers, r.modifierApplied)) =
      some ([1, 2, 3, 45, 40], true) ∧
    ¬ List.Sorted (· ≤ ·) [1, 2, 3, 45, 40] := by
  constructor
  · decide
  · decide

/-- C1 witness: the hypotheses of `claim1_main_numbers_invariants` hold for a
concrete configured game and the conclusion follows. -/
theorem claim1_witness :
    (GAME_CONFIGS "lottario" = some lottarioConfig ∧ ConfigOK lottarioConfig) ∧
    (∃ res, generateMultiStrategy "lottario" .DELTA ⟨5, 12, false⟩ 0 (some 42) = some res ∧
      ValidPick lottarioConfig res.mainNumbers) :=
  ⟨⟨by decide, by decide⟩,
   claim1_main_numbers_invariants.2 "lottario" lottarioConfig (by decide) (by decide)
     .DELTA ⟨5, 12, false⟩ 0 (some 42)⟩

/-- C2 (amended): for every phase/longitude oracle and start time `t0`, the
next-boundary search returns a time strictly greater than `t0`; when the
48-step hourly scan detects an index change the returned time's discretised
index differs from the index at `t0`, but when the scan exhausts its horizon
the function silently returns `t0 + 48h` (a non-boundary time) instead of
surfacing an error. -/
theorem claim2_next_boundary :
    (∀ (phase : ℤ → ℚ) (t0 : ℤ),
      t0 < getNextTithiChange phase t0 ∧
      (tithiIndexAt phase (getNextTithiChange phase t0) ≠ tithiIndexAt phase t0 ∨
        getNextTithiChange phase t0 = t0 + 48 * stepMs)) ∧
    (∀ (elon : ℤ → ℚ) (t0 : ℤ),
      t0 < getNextNakshatraChange elon t0 ∧
      (nakshatraIndexAt elon (getNextNakshatraChange elon t0) ≠ nakshatraIndexAt elon t0 ∨
        getNextNakshatraChange elon t0 = t0 + 48 * stepMs)) :=
  ⟨fun phase t0 => nextIndexChange_spec (tithiIndexAt phase) t0,
   fun elon t0 => nextIndexChange_spec (nakshatraIndexAt elon) t0⟩

/-- C2 counterexample: with a constant phase oracle the coarse scan exhausts
its 48 hourly steps; `getNextTithiChange` then returns `t0 + 48h` whose tithi
index equals the index at `t0` — a non-boundary time, not an explicit error,
refuting the claim's error-surfacing conjunct. -/
theorem claim2_silent_horizon_cex :
    getNextTithiChange (fun _ => 0) 0 = 172800000 ∧
    tithiIndexAt (fun _ => 0) 172800000 = tithiIndexAt (fun _ => 0) 0 := by
  constructor
  · decide
  · decide

/-- When every one of the ten attempts fails validation, the modifier keeps
the sorted input untouched and reports itself not applied. -/
theorem applyFullMoonModifier_none (numbers : List ℕ) (lo hi original : ℕ)
    (hlast : (List.insertionSort (· ≤ ·) numbers).getLast? = some original)
    (hatt : fmAttempts ((List.insertionSort (· ≤ ·) numbers).dropLast) lo hi original 0 10 =
      none) :
    applyFullMoonModifier numbers lo hi =
      { numbers := List.insertionSort (· ≤ ·) numbers, applied := false,
        before := some original, after := some original, repairSteps := some 10 } := by
  unfold applyFullMoonModifier
  set s := List.insertionSort (· ≤ ·) numbers with hs
  dsimp only
  rw [hlast]
  dsimp only
  rw [hatt]

/-- C4 (amended): the full-moon repair modifier never introduces a duplicate
or out-of-range value (count, distinctness and range are preserved), and
whenever all ten attempted values fail the range/duplicate validation it
leaves the sorted numbers unchanged and reports the modifier as not applied
with after = before.  (However, when the tenth attempt — which always wraps
the ones digit back to the original value — passes validation, the number is
likewise unchanged but the modifier is reported as applied; see the
counterexample.) -/
theorem claim4_full_moon_modifier :
    (∀ (numbers : List ℕ) (lo hi : ℕ), numbers.Nodup →
      (∀ x ∈ numbers, lo ≤ x ∧ x ≤ hi) →
      (applyFullMoonModifier numbers lo hi).numbers.length = numbers.length ∧
      (applyFullMoonModifier numbers lo hi).numbers.Nodup ∧
      ∀ x ∈ (applyFullMoonModifier numbers lo hi).numbers, lo ≤ x ∧ x ≤ hi) ∧
    (∀ (numbers : List ℕ) (lo hi original : ℕ),
      (List.insertionSort (· ≤ ·) numbers).getLast? = some original →
      fmAttempts ((List.insertionSort (· ≤ ·) numbers).dropLast) lo hi original 0 10 = none →
      applyFullMoonModifier numbers lo hi =
        { numbers := List.insertionSort (· ≤ ·) numbers, applied := false,
          before := some original, after := some original, repairSteps := some 10 }) :=
  ⟨applyFullMoonModifier_valid, applyFullMoonModifier_none⟩

/-- C4 counterexample: for the Lotto Max set [1,2,3,4,5,6,50] on range
[1,50], every genuinely new attempted value (51 … 59) is out of range, so no
attempt yields a valid new value; the tenth attempt wraps back to 50 itself,
which passes validation — the modifier leaves the number unchanged yet
reports `applied = true` (with after = before and ten repair steps) instead
of "not applied" as the claim states. -/
theorem claim4_reports_applied_cex :
    ((List.range' 51 9).all (fun v => decide (50 < v))) = true ∧
    applyFullMoonModifier [1, 2, 3, 4, 5, 6, 50] 1 50 =
      { numbers := [1, 2, 3, 4, 5, 6, 50], applied := true, before := some 50,
        after := some 50, repairSteps := some 10 } := by
  constructor
  · decide
  · decide

/-- C4 witness: concrete instances discharging both parts' hypotheses. -/
theorem claim4_witness :
    ((applyFullMoonModifier [2, 7] 1 10).numbers.length = 2 ∧
      (applyFullMoonModifier [2, 7] 1 10).numbers.Nodup ∧
      ∀ x ∈ (applyFullMoonModifier [2, 7] 1 10).numbers, 1 ≤ x ∧ x ≤ 10) ∧
    applyFullMoonModifier [41, 42, 43, 44, 45, 46, 47, 48, 49, 49] 41 49 =
      { numbers := [41, 42, 43, 44, 45, 46, 47, 48, 49, 49], applied := false,
        before := some 49, after := some 49, repairSteps := some 10 } :=
  ⟨claim4_full_moon_modifier.1 [2, 7] 1 10 (by decide) (by decide),
   claim4_full_moon_modifier.2 [41, 42, 43, 44, 45, 46, 47, 48, 49, 49] 41 49 49
     (by decide) (by decide)⟩

/-- C5: generation is deterministic — two calls of the embedded generation
functions with componentwise-identical inputs (game slug, strategy, astronomy
readings of the timestamp, timestamp, seed, historical profile) return
identical results.  The embedding is a pure function of exactly these inputs:
no ambient state exists to be read. -/
theorem claim5_determinism :
    (∀ (g1 g2 : String) (s1 s2 : Strategy) (a1 a2 : Astro) (t1 t2 : ℕ)
       (sd1 sd2 : Option ℕ) (p1 p2 : Option HistoricalStats),
      g1 = g2 → s1 = s2 → a1 = a2 → t1 = t2 → sd1 = sd2 → p1 = p2 →
      generateNumbers g1 s1 a1 t1 sd1 p1 = generateNumbers g2 s2 a2 t2 sd2 p2) ∧
    (∀ (g1 g2 : String) (s1 s2 : MultiStrategy) (a1 a2 : Astro) (t1 t2 : ℕ)
       (sd1 sd2 : Option ℕ),
      g1 = g2 → s1 = s2 → a1 = a2 → t1 = t2 → sd1 = sd2 →
      generateMultiStrategy g1 s1 a1 t1 sd1 = generateMultiStrategy g2 s2 a2 t2 sd2) := by
  constructor
  · intro g1 g2 s1 s2 a1 a2 t1 t2 sd1 sd2 p1 p2 hg hs ha ht hsd hp
    subst hg; subst hs; subst ha; subst ht; subst hsd; subst hp
    rfl
  · intro g1 g2 s1 s2 a1 a2 t1 t2 sd1 sd2 hg hs ha ht hsd
    subst hg; subst hs; subst ha; subst ht; subst hsd
    rfl

/-- C5 witness: two-run equality at a concrete input. -/
theorem claim5_witness :
    generateNumbers "lotto-649" .TITHI ⟨3, 4, false⟩ 5 (some 6) none =
      generateNumbers "lotto-649" .TITHI ⟨3, 4, false⟩ 5 (some 6) none ∧
    generateMultiStrategy "lottario" .MARKOV ⟨3, 4, false⟩ 5 (some 6) =
      generateMultiStrategy "lottario" .MARKOV ⟨3, 4, false⟩ 5 (some 6) :=
  ⟨claim5_determinism.1 _ _ _ _ _ _ _ _ _ _ _ _ rfl rfl rfl rfl rfl rfl,
   claim5_determinism.2 _ _ _ _ _ _ _ _ _ _ rfl rfl rfl rfl rfl⟩

/-- C10: every value of the seeded generator lies in [0, 1); consequently the
Fisher–Yates swap index satisfies `j ≤ i` at every iteration, and the MARKOV
pick among the top `min 5 len` scored candidates indexes an existing element
of its nonempty candidate list. -/
theorem claim10_rng_and_index_bounds :
    (∀ rng : Rng, 0 ≤ (rngNext rng).1 ∧ (rngNext rng).1 < 1) ∧
    (∀ (r : ℚ) (i : ℕ), 0 ≤ r → r < 1 → swapIndex r i ≤ i) ∧
    (∀ (r : ℚ) (len : ℕ), 0 ≤ r → r < 1 → 0 < len → markovPickIndex r len < len) :=
  ⟨fun rng => ⟨rngNext_nonneg rng, rngNext_lt_one rng⟩, swapIndex_le, markovPickIndex_lt⟩

/-- C10 witness: the index bounds applied at concrete RNG values. -/
theorem claim10_witness :
    swapIndex (1 / 2) 7 ≤ 7 ∧ markovPickIndex (1 / 2) 3 < 3 :=
  ⟨claim10_rng_and_index_bounds.2.1 (1 / 2) 7 (by norm_num) (by norm_num),
   claim10_rng_and_index_bounds.2.2 (1 / 2) 3 (by norm_num) (by norm_num) (by norm_num)⟩

/-- When no dynamic label parses, `buildPrizeRules` returns the empty rule
list (every share is skipped). -/
theorem buildPrizeRules_eq_nil (slug : String) (cost : Option ℚ) :
    ∀ shares : List PrizeShare,
    (∀ s ∈ shares, parseMatchDescriptor slug s.matchLabel = none) →
    buildPrizeRules slug shares cost = [] := by
  intro shares
  induction shares with
  | nil => intro _; rfl
  | cons s rest ih =>
    intro h
    have hs : parseMatchDescriptor slug s.matchLabel = none := h s (List.mem_cons_self s rest)
    have hrest := ih fun x hx => h x (List.mem_cons_of_mem s hx)
    unfold buildPrizeRules at hrest ⊢
    simp only [List.foldr_cons, hs]
    exact hrest

/-- C3 (amended): `evaluatePrediction` falls back to the static built-in
table only when the dynamic prize-share list is absent or empty; a non-empty
dynamic list none of whose tier labels parses yields an empty rule list and
hence a `null` evaluation result — it does not fall back. -/
theorem claim3_unparseable_shares_yield_null :
    (∀ (gameSlug : String) (cand : List ℕ) (cb : Option (List ℕ)) (off : List ℕ)
       (ob : Option (List ℕ)) (cost : Option ℚ),
      evaluatePrediction gameSlug cand cb off ob none cost =
        evaluatePrediction gameSlug cand cb off ob (some []) cost) ∧
    (∀ (gameSlug : String) (cand : List ℕ) (cb : Option (List ℕ)) (off : List ℕ)
       (ob : Option (List ℕ)) (shares : List PrizeShare) (cost : Option ℚ),
      shares ≠ [] →
      (∀ s ∈ shares, parseMatchDescriptor gameSlug s.matchLabel = none) →
      evaluatePrediction gameSlug cand cb off ob (some shares) cost = none) := by
  constructor
  · intro gameSlug cand cb off ob cost
    rfl
  · intro gameSlug cand cb off ob shares cost hne hall
    unfold evaluatePrediction
    dsimp only
    rw [if_pos (by cases shares with
      | nil => exact absurd rfl hne
      | cons a l => simp)]
    rw [buildPrizeRules_eq_nil gameSlug cost shares hall]
    dsimp only
    rw [if_pos rfl]

/-- C3 counterexample: a non-empty dynamic list whose only label ("EARLY
BIRD") parses to nothing makes `evaluatePrediction` return `null`, whereas
the same call with no dynamic list resolves the "3/6" tier from the static
lotto-649 table — the non-empty unparseable list does not fall back. -/
theorem claim3_no_fallback_cex :
    evaluatePrediction "lotto-649" [1, 2, 3, 4, 5, 6] none [1, 2, 3, 10, 11, 12] none
      (some [{ matchLabel := "EARLY BIRD", amount := .text "$5" }]) none = none ∧
    (evaluatePrediction "lotto-649" [1, 2, 3, 4, 5, 6] none [1, 2, 3, 10, 11, 12] none
      none none).map (fun r => (r.category, r.prizeValue)) = some (some "3/6", some 10) := by
  constructor
  · decide
  · decide

/-- C3 witness: the amended theorem applied to a concrete unparseable list. -/
theorem claim3_witness :
    evaluatePrediction "lotto-649" [1, 2, 3] none [4, 5, 6] none
      (some [{ matchLabel := "EARLY BIRD", amount := .text "$5" }]) none = none :=
  claim3_unparseable_shares_yield_null.2 "lotto-649" [1, 2, 3] none [4, 5, 6] none
    [{ matchLabel := "EARLY BIRD", amount := .text "$5" }] none (by decide) (by decide)

theorem parsePrizeValue_free_play (text : String) (cost : Option ℚ)
    (hne : text ≠ "")
    (hfp : containsSub "FREE PLAY".data (text.data.map Char.toUpper) = true) :
    parsePrizeValue text cost = some (cost.getD 0) := by
  unfold parsePrizeValue
  rw [if_neg hne]
  rw [if_pos hfp]

theorem parsePrizeValue_life (text : String) (cost : Option ℚ)
    (hne : text ≠ "")
    (hfp : containsSub "FREE PLAY".data (text.data.map Char.toUpper) = false)
    (hlife : containsSub "LIFE".data (text.data.map Char.toUpper) = true) :
    parsePrizeValue text cost = none := by
  unfold parsePrizeValue
  rw [if_neg hne]
  rw [if_neg (by simp [hfp])]
  rw [if_pos hlife]

theorem getFallbackRules_known_cost (slug : String) (c : ℚ) (rules : List PrizeRule)
    (h : getFallbackRules slug (some c) = some rules) :
    ∀ r ∈ rules,
      containsSub "FREE PLAY".data (r.prizeText.data.map Char.toUpper) = true →
      r.prizeValue = some c := by
  unfold getFallbackRules at h
  cases htab : PRIZE_TABLES slug with
  | none => rw [htab] at h; simp at h
  | some base =>
    rw [htab] at h
    have h2 := Option.some.inj h
    subst h2
    intro r hr hfp
    rw [List.mem_map] at hr
    obtain ⟨rule, hmem, hrule⟩ := hr
    by_cases hcond : containsSub "FREE PLAY".data (rule.prizeText.data.map Char.toUpper) = true
    · rw [if_pos hcond] at hrule
      subst hrule
      rfl
    · rw [if_neg hcond] at hrule
      subst hrule
      exact absurd hfp hcond

theorem getFallbackRules_unknown_cost (slug : String) :
    getFallbackRules slug none = PRIZE_TABLES slug := by
  unfold getFallbackRules
  cases htab : PRIZE_TABLES slug with
  | none => rfl
  | some base =>
    have hmap : ∀ (f : PrizeRule → PrizeRule), (∀ r, f r = r) →
        ∀ bs : List PrizeRule, List.map f bs = bs := by
      intro f hfr bs
      induction bs with
      | nil => rfl
      | cons b bs ihb => rw [List.map_cons, hfr, ihb]
    exact congrArg some (hmap _ (fun r => by split <;> rfl) base)

/-- Every dynamically built rule's numeric value is `parsePrizeValue` of its
(preserved) amount text, and both text and label come from some share. -/
theorem buildPrizeRules_provenance (slug : String) (cost : Option ℚ) :
    ∀ (shares : List PrizeShare) (r : PrizeRule), r ∈ buildPrizeRules slug shares cost →
    r.prizeValue = parsePrizeValue r.prizeText cost ∧
    ∃ s ∈ shares, r.prizeText = normalizeAmountText s.amount ∧ r.category = s.matchLabel := by
  intro shares
  induction shares with
  | nil => intro r hr; simp [buildPrizeRules] at hr
  | cons s rest ih =>
    intro r hr
    unfold buildPrizeRules at hr
    rw [List.foldr_cons] at hr
    cases hp : parseMatchDescriptor slug s.matchLabel with
    | none =>
      rw [hp] at hr
      obtain ⟨h1, t, ht, h3⟩ := ih r (by unfold buildPrizeRules; exact hr)
      exact ⟨h1, t, List.mem_cons_of_mem s ht, h3⟩
    | some triple =>
      obtain ⟨mm, mb, mg⟩ := triple
      rw [hp] at hr
      rw [List.mem_cons] at hr
      cases hr with
      | inl heq =>
        subst heq
        exact ⟨rfl, s, List.mem_cons_self s rest, rfl, rfl⟩
      | inr hmem =>
        obtain ⟨h1, t, ht, h3⟩ := ih r (by unfold buildPrizeRules; exact hmem)
        exact ⟨h1, t, List.mem_cons_of_mem s ht, h3⟩

/-- C6 (amended): a tier whose amount text contains "FREE PLAY" resolves to
the game's play cost; when the cost is unknown the dynamically parsed path
resolves it to 0 but the static fallback table keeps its preset numeric value
(5 / 3 / 3 / 1 per game) — not 0.  A lifetime-annuity tier resolves to a null
numeric value with its literal text preserved on both paths. -/
theorem claim6_prize_value_resolution :
    (∀ (text : String) (cost : Option ℚ), text ≠ "" →
      containsSub "FREE PLAY".data (text.data.map Char.toUpper) = true →
      parsePrizeValue text cost = some (cost.getD 0)) ∧
    (∀ (text : String) (cost : Option ℚ), text ≠ "" →
      containsSub "FREE PLAY".data (text.data.map Char.toUpper) = false →
      containsSub "LIFE".data (text.data.map Char.toUpper) = true →
      parsePrizeValue text cost = none) ∧
    (∀ (slug : String) (c : ℚ) (rules : List PrizeRule),
      getFallbackRules slug (some c) = some rules →
      ∀ r ∈ rules,
        containsSub "FREE PLAY".data (r.prizeText.data.map Char.toUpper) = true →
        r.prizeValue = some c) ∧
    (∀ slug : String, getFallbackRules slug none = PRIZE_TABLES slug) ∧
    (∀ (slug : String) (cost : Option ℚ) (shares : List PrizeShare) (r : PrizeRule),
      r ∈ buildPrizeRules slug shares cost →
      r.prizeValue = parsePrizeValue r.prizeText cost ∧
      ∃ s ∈ shares, r.prizeText = normalizeAmountText s.amount ∧ r.category = s.matchLabel) :=
  ⟨parsePrizeValue_free_play, parsePrizeValue_life, getFallbackRules_known_cost,
   getFallbackRules_unknown_cost, fun slug cost => buildPrizeRules_provenance slug cost⟩

/-- C6 counterexample: on the static fallback path with an unknown play cost,
the lotto-649 "2/6" FREE PLAY tier resolves to its preset value $3, not 0 —
refuting "0 when the play cost is unknown … on both paths". -/
theorem claim6_static_free_play_cex :
    ((getFallbackRules "lotto-649" none).getD []).getLast? =
      some { matchMain := 2, matchBonus := false, matchGrand := false, category := "2/6",
             prizeValue := some 3, prizeText := "FREE PLAY" } ∧
    (some (3 : ℚ) : Option ℚ) ≠ some 0 := by
  constructor
  · decide
  · decide

/-- C6 witness: concrete instances discharging each part's hypotheses. -/
theorem claim6_witness :
    parsePrizeValue "FREE PLAY" none = some 0 ∧
    parsePrizeValue "$1,000 a DAY for LIFE" (some 3) = none ∧
    getFallbackRules "lottario" none = PRIZE_TABLES "lottario" :=
  ⟨parsePrizeValue_free_play "FREE PLAY" none (by decide) (by decide),
   parsePrizeValue_life "$1,000 a DAY for LIFE" (some 3) (by decide) (by decide) (by decide),
   claim6_prize_value_resolution.2.2.2.1 "lottario"⟩

theorem matchMainCountFn_nodup (user draw : List ℕ) (hnd : user.Nodup) :
    matchMainCountFn user draw = (user.toFinset ∩ draw.toFinset).card := by
  unfold matchMainCountFn
  have hfil : (user.filter (fun n => decide (n ∈ draw))).Nodup := hnd.filter _
  rw [← List.toFinset_card_of_nodup hfil]
  congr 1
  rw [List.toFinset_filter]
  ext a
  simp [Finset.mem_filter, Finset.mem_inter]

/-- C8: `evaluatePrediction`'s main-match count counts each repetition of a
candidate number separately, so a duplicated candidate value that appears in
the official list can make the count exceed the set-intersection size; for
duplicate-free candidate lists the count equals the set-intersection size. -/
theorem claim8_duplicates_inflate_match_count :
    ((evaluatePrediction "lotto-649" [1, 1, 2] none [1, 5, 9] none none none).map
        (fun r => r.matchCountMain) = some 2 ∧
      ([1, 1, 2].toFinset ∩ [1, 5, 9].toFinset).card = 1) ∧
    ∀ (user draw : List ℕ), user.Nodup →
      matchMainCountFn user draw = (user.toFinset ∩ draw.toFinset).card :=
  ⟨⟨by decide, by decide⟩, matchMainCountFn_nodup⟩

/-- C8 witness: the duplicate-free case at a concrete input. -/
theorem claim8_witness :
    matchMainCountFn [1, 2, 3] [2, 3, 9] = ([1, 2, 3].toFinset ∩ [2, 3, 9].toFinset).card :=
  claim8_duplicates_inflate_match_count.2 [1, 2, 3] [2, 3, 9] (by decide)

/-! ## Historical-stats lemmas (C7, C9) -/

theorem lookup_map_pair (f : ℕ → ℚ) :
    ∀ (l : List ℕ) (n : ℕ), n ∈ l →
    List.lookup n (l.map fun k => (k, f k)) = some (f n) := by
  intro l
  induction l with
  | nil => intro n h; simp at h
  | cons k t ih =>
    intro n h
    rw [List.map_cons]
    by_cases hk : n = k
    · subst hk
      simp [List.lookup]
    · rw [List.mem_cons] at h
      have hmem : n ∈ t := h.resolve_left hk
      have hbeq : (n == k) = false := beq_false_of_ne hk
      simp [List.lookup, hbeq, ih n hmem]

theorem occCount_nil (getN : HistoricalDraw → List ℕ) (n : ℕ) : occCount [] getN n = 0 := rfl

theorem occCount_cons (d : HistoricalDraw) (w : List HistoricalDraw)
    (getN : HistoricalDraw → List ℕ) (n : ℕ) :
    occCount (d :: w) getN n = (getN d).count n + occCount w getN n := by
  unfold occCount
  rw [List.map_cons, List.flatten_cons, List.count_append]

theorem occCount_eq_countP (getN : HistoricalDraw → List ℕ) (n : ℕ) :
    ∀ w : List HistoricalDraw, (∀ d ∈ w, (getN d).Nodup) →
    occCount w getN n = w.countP (fun d => decide (n ∈ getN d)) := by
  intro w
  induction w with
  | nil => intro _; rfl
  | cons d w ih =>
    intro h
    rw [occCount_cons, List.countP_cons,
      ih fun x hx => h x (List.mem_cons_of_mem d hx)]
    by_cases hm : n ∈ getN d
    · rw [List.count_eq_one_of_mem (h d (List.mem_cons_self d w)) hm]
      simp [hm]
      omega
    · rw [List.count_eq_zero_of_not_mem hm]
      simp [hm]

theorem occCount_insertionSort (w : List HistoricalDraw) (getN : HistoricalDraw → List ℕ)
    (n : ℕ) : occCount (List.insertionSort drawDescRel w) getN n = occCount w getN n := by
  unfold occCount
  exact (((List.perm_insertionSort drawDescRel w).map getN).flatten).count_eq n

theorem frequencyScore_mono (c1 c2 T : ℕ) (h : c1 ≤ c2) :
    frequencyScore c1 T ≤ frequencyScore c2 T := by
  unfold frequencyScore
  by_cases hT : 0 < T
  · rw [if_pos hT, if_pos hT]
    have hc : (c1 : ℚ) ≤ (c2 : ℚ) := by exact_mod_cast h
    have hTq : (0 : ℚ) ≤ (T : ℚ) := by positivity
    have := div_le_div_of_nonneg_right (c := (T : ℚ)) hc hTq
    nlinarith
  · rw [if_neg hT, if_neg hT]

/-- The value `computeScores` stores for an in-range `n` is exactly the
frequency component plus the gap component. -/
theorem computeScores_lookup (draws : List HistoricalDraw) (lo hi : ℕ)
    (getN : HistoricalDraw → List ℕ) (n : ℕ) (h1 : lo ≤ n) (h2 : n ≤ hi) :
    List.lookup n (computeScores draws lo hi getN) =
      some (frequencyScore (occCount draws getN n) draws.length +
        gapScore ((List.insertionSort drawDescRel draws).findIdx?
          (fun d => decide (n ∈ getN d))) (max 1 (draws.length - 1))) := by
  unfold computeScores
  rw [lookup_map_pair _ _ n (mem_rangeList.mpr ⟨h1, h2⟩)]
  rw [occCount_insertionSort, (List.perm_insertionSort drawDescRel draws).length_eq]

/-- C7: the frequency component of the per-number score is monotone in the
number of draws containing that number — two windows of equal size with
duplicate-free draw lists satisfy: more draws containing `n` gives a
frequency score that is never smaller.  The last conjunct ties the component
to `computeScores`' stored value. -/
theorem claim7_frequency_monotone :
    (∀ c1 c2 T : ℕ, c1 ≤ c2 → frequencyScore c1 T ≤ frequencyScore c2 T) ∧
    (∀ (w1 w2 : List HistoricalDraw) (getN : HistoricalDraw → List ℕ) (n : ℕ),
      (∀ d ∈ w1, (getN d).Nodup) → (∀ d ∈ w2, (getN d).Nodup) →
      w1.length = w2.length →
      w1.countP (fun d => decide (n ∈ getN d)) ≤ w2.countP (fun d => decide (n ∈ getN d)) →
      frequencyScore (occCount w1 getN n) w1.length ≤
        frequencyScore (occCount w2 getN n) w2.length) ∧
    (∀ (draws : List HistoricalDraw) (lo hi : ℕ) (getN : HistoricalDraw → List ℕ) (n : ℕ),
      lo ≤ n → n ≤ hi →
      List.lookup n (computeScores draws lo hi getN) =
        some (frequencyScore (occCount draws getN n) draws.length +
          gapScore ((List.insertionSort drawDescRel draws).findIdx?
            (fun d => decide (n ∈ getN d))) (max 1 (draws.length - 1)))) := by
  refine ⟨frequencyScore_mono, ?_, computeScores_lookup⟩
  intro w1 w2 getN n hn1 hn2 hlen hocc
  rw [occCount_eq_countP getN n w1 hn1, occCount_eq_countP getN n w2 hn2, hlen]
  exact frequencyScore_mono _ _ _ hocc

/-- C7 witness: windows ([{1,2}], [{1,3}]) vs ([{2,3}], [{4,5}]) — the first
pair contains 1 in two draws, the second in none. -/
theorem claim7_witness :
    frequencyScore (occCount
        [{ drawAt := 0, numbers := [2, 3] }, { drawAt := 1, numbers := [4, 5] }]
        (·.numbers) 1) 2 ≤
      frequencyScore (occCount
        [{ drawAt := 0, numbers := [1, 2] }, { drawAt := 1, numbers := [1, 3] }]
        (·.numbers) 1) 2 := by
  have h := claim7_frequency_monotone.2.1
    [{ drawAt := 0, numbers := [2, 3] }, { drawAt := 1, numbers := [4, 5] }]
    [{ drawAt := 0, numbers := [1, 2] }, { drawAt := 1, numbers := [1, 3] }]
    (·.numbers) 1 (by decide) (by decide) (by decide) (by decide)
  simpa using h

/-- C9: on the empty draw window `buildHistoricalStats` is total — the
`totalDraws > 0` guard makes the frequency component 0 (no division by zero),
every number of the range receives the maximum gap score, and so every stored
score is exactly the gap weight 5. -/
theorem claim9_empty_window_scores :
    (∀ (lo hi : ℕ) (getN : HistoricalDraw → List ℕ) (n : ℕ), lo ≤ n → n ≤ hi →
      List.lookup n (computeScores [] lo hi getN) = some 5) ∧
    (∀ (config : GameConfig) (n : ℕ), config.mainMin ≤ n → n ≤ config.mainMax →
      List.lookup n ((buildHistoricalStats [] config).mainScores) = some 5) ∧
    (∀ config : GameConfig, (buildHistoricalStats [] config).totalDraws = 0) ∧
    (∀ c : ℕ, frequencyScore c 0 = 0) := by
  have hbase : ∀ (lo hi : ℕ) (getN : HistoricalDraw → List ℕ) (n : ℕ), lo ≤ n → n ≤ hi →
      List.lookup n (computeScores [] lo hi getN) = some 5 := by
    intro lo hi getN n h1 h2
    rw [computeScores_lookup [] lo hi getN n h1 h2]
    norm_num [occCount_nil, frequencyScore, gapScore]
  refine ⟨hbase, ?_, fun _ => rfl, fun c => by simp [frequencyScore]⟩
  intro config n h1 h2
  exact hbase _ _ _ n h1 h2

/-- C9 witness: the empty-window score of a concrete in-range number. -/
theorem claim9_witness :
    List.lookup 7 ((buildHistoricalStats [] lotto649Config).mainScores) = some 5 :=
  claim9_empty_window_scores.2.1 lotto649Config 7 (by decide) (by decide)

end MoonLotto
